import Mathlib

/-!
# REDasm: the disassembler listing view

A shallow embedding of `widgets/disassemblertextview/disassemblertextview.cpp`
(class `DisassemblerTextView`), the scroll/navigation controller of the listing
widget, together with the properties of it that are settled below.

Conventions of the embedding.

* A C++ `int` is a Lean `Int`; every quantity is assumed to stay inside the
  range of `int` (signed overflow is undefined in C++, so there is nothing to
  wrap).  `address_t` is a natural number.
* A member function that mutates the widget is a function from the widget state
  to `Option` of the new state.  `none` stands for a fault: a dereference of a
  `NULL` member pointer or an integer division by zero.
* Everything the widget sends outwards (redraw requests, Qt signals, dialogs,
  calls into the renderer) is appended to the field `log` of the state, oldest
  first.
* `QScrollBar` and `QString` belong to Qt and are modelled after the Qt
  documentation.  The listing document, its cursor and the symbol table belong
  to the REDasm library; their sources are not part of the widget file and they
  are modelled from the written specification.
-/

namespace REDasm

/-- Addresses of the disassembled program (`address_t`, an unsigned 64 bit integer). -/
abbrev address_t := Nat

/-- Modelled from the spec: the kinds of a document item; the class
`ListingItem` is declared outside the widget file. -/
inductive ItemType where
  | SegmentItem
  | FunctionItem
  | SymbolItem
  | InstructionItem
  deriving DecidableEq, Repr

/-- Modelled from the spec: one unit of the listing (`ListingItem`), with the
address it is shown for and its kind.  A `ListingItem*` that is not `NULL` is a
value of this type. -/
structure ListingItem where
  address : address_t
  type : ItemType
  deriving DecidableEq, Repr

/-- Modelled from the spec: a symbol reference (`Symbol`, reached through
`SymbolPtr`): an address and a display name. -/
structure Symbol where
  address : address_t
  name : List Char
  deriving DecidableEq, Repr

/-- Modelled from the spec: the symbol table (`SymbolTable`), the symbols in
the order they were defined. -/
abbrev SymbolTable := List Symbol

/-- Modelled from the spec: `SymbolTable::symbol(const std::string&)`, the
symbol-table lookup by name; `none` is the null `SymbolPtr`. -/
def SymbolTable.symbol (t : SymbolTable) (name : List Char) : Option Symbol :=
  t.find? (fun s => decide (s.name = name))

/-- Modelled from the spec: `SymbolTable::symbol(address_t)`, the symbol-table
lookup by address; `none` is the null `SymbolPtr`. -/
def SymbolTable.symbolAt (t : SymbolTable) (address : address_t) : Option Symbol :=
  t.find? (fun s => decide (s.address = address))

/-- Modelled from the spec: the listing cursor (`ListingCursor`): current line
and column, an optional selection end, the word under the cursor, and the
event `selectionChanged`.  The only handler this development binds to that
event is `DisassemblerTextView::moveToSelection`, so the event is represented
by the number of times that handler has been added to it. -/
structure ListingCursor where
  line : Int
  column : Int
  selection : Option (Int × Int)
  word : List Char
  selectionChanged : Nat
  deriving DecidableEq, Repr

/-- Modelled from the spec: `ListingCursor::currentLine`. -/
def ListingCursor.currentLine (c : ListingCursor) : Int := c.line

/-- Modelled from the spec: `ListingCursor::wordUnderCursor`. -/
def ListingCursor.wordUnderCursor (c : ListingCursor) : List Char := c.word

/-- Modelled from the spec: the state change of `ListingCursor::select(line, column)`:
the position becomes `(line, column)` with a collapsed selection.  Raising
`selectionChanged` afterwards is done by `DisassemblerTextView.select`. -/
def ListingCursor.moveTo (c : ListingCursor) (line column : Int) : ListingCursor :=
  { c with line := line, column := column, selection := none }

/-- Modelled from the spec: the listing document (`ListingDocument`): the
ordered sequence of items, the symbol table, the cursor, and the event
`changed`, represented by the number of times
`DisassemblerTextView::onDocumentChanged` has been added to it. -/
structure ListingDocument where
  items : List ListingItem
  symbols : SymbolTable
  cursor : ListingCursor
  changed : Nat
  deriving DecidableEq, Repr

namespace ListingDocument

/-- Modelled from the spec: `ListingDocument::size`. -/
def size (doc : ListingDocument) : Nat := doc.items.length

/-- Modelled from the spec: `ListingDocument::end`; an iterator is the position
it points at, and the past-the-end iterator is the size. -/
def «end» (doc : ListingDocument) : Nat := doc.items.length

/-- Modelled from the spec: the lookup of an item by address and kind; the
result is an iterator, `end` when there is no such item. -/
def item (doc : ListingDocument) (address : address_t) (type : ItemType) : Nat :=
  doc.items.findIdx (fun i => decide (i.address = address ∧ i.type = type))

/-- Modelled from the spec: `ListingDocument::instructionItem`, the lookup of
the instruction at an address. -/
def instructionItem (doc : ListingDocument) (address : address_t) : Nat :=
  doc.item address ItemType.InstructionItem

/-- Modelled from the spec: `ListingDocument::symbolItem`, the lookup of the
symbol (label) item at an address. -/
def symbolItem (doc : ListingDocument) (address : address_t) : Nat :=
  doc.item address ItemType.SymbolItem

/-- Modelled from the spec: `ListingDocument::indexOf`, the line index of an
item, `-1` when the item is not in the document. -/
def indexOf (doc : ListingDocument) (item : ListingItem) : Int :=
  if doc.items.indexOf item < doc.items.length then (doc.items.indexOf item : Int) else -1

/-- Modelled from the spec: `ListingDocument::itemAt`, the item at a line
index; `none` is `NULL`. -/
def itemAt (doc : ListingDocument) (line : Int) : Option ListingItem :=
  if 0 ≤ line then doc.items[line.toNat]? else none

/-- Modelled from the spec: `ListingDocument::symbol(address_t)`. -/
def symbol (doc : ListingDocument) (address : address_t) : Option Symbol :=
  doc.symbols.symbolAt address

/-- Modelled from the spec: `ListingDocument::symbol(const std::string&)`. -/
def symbolNamed (doc : ListingDocument) (name : List Char) : Option Symbol :=
  doc.symbols.symbol name

end ListingDocument

/-- Modelled from the spec: the part of `DisassemblerAPI` the view uses: the
document, the number of recorded references to an address
(`getReferencesCount`), and the event `finished`, represented by the number of
times `DisassemblerTextView::onDisassemblerFinished` has been added to it. -/
structure DisassemblerAPI where
  document : ListingDocument
  references : List (address_t × Nat)
  finished : Nat
  deriving DecidableEq, Repr

/-- Modelled from the spec: `DisassemblerAPI::getReferencesCount`. -/
def DisassemblerAPI.getReferencesCount (d : DisassemblerAPI) (address : address_t) : Nat :=
  match d.references.find? (fun p => decide (p.1 = address)) with
  | some p => p.2
  | none => 0

end REDasm

/-! ## The Qt classes the view relies on -/

/-- The text type of Qt, as the list of its characters. -/
abbrev QString := List Char

/-- The test `QChar::isSpace`: the characters U+0009 to U+000D, U+0085 and the
Unicode separators (categories Zs, Zl and Zp). -/
def QChar.isSpace (c : Char) : Bool :=
  let n := c.toNat
  (9 ≤ n && n ≤ 13) || n == 32 || n == 133 || n == 160 || n == 5760 ||
  (8192 ≤ n && n ≤ 8202) || n == 8232 || n == 8233 || n == 8239 || n == 8287 || n == 12288

/-- The part of `QString::simplified` that runs once a first character has been
written: `gap` tells that whitespace was met since the last character written,
and a single space is written before the next one in that case. -/
def QString.simplifiedTail (gap : Bool) : QString → QString
  | [] => []
  | c :: cs =>
    if QChar.isSpace c then QString.simplifiedTail true cs
    else if gap then ' ' :: c :: QString.simplifiedTail false cs
    else c :: QString.simplifiedTail false cs

/-- The function `QString::simplified`: whitespace is removed from the start
and the end, and each sequence of internal whitespace becomes one space. -/
def QString.simplified : QString → QString
  | [] => []
  | c :: cs =>
    if QChar.isSpace c then QString.simplified cs
    else c :: QString.simplifiedTail false cs

/-- The call `QString::replace(before, after)` for texts of one character each:
every occurrence of `before` becomes `after`. -/
def QString.replace (s : QString) (before after : Char) : QString :=
  s.map (fun c => if c = before then after else c)

/-- The value range and the value of a `QScrollBar` (`QAbstractSlider`). -/
structure QScrollBar where
  minimum : Int
  maximum : Int
  value : Int
  deriving DecidableEq, Repr

namespace QScrollBar

/-- The clamp `QAbstractSliderPrivate::bound`: `qMax(minimum, qMin(maximum, val))`. -/
def bound (b : QScrollBar) (val : Int) : Int := max b.minimum (min b.maximum val)

/-- The slot `QAbstractSlider::setValue`: the value is clamped into the range.
The signal `valueChanged` is emitted exactly when the stored value changes. -/
def setValue (b : QScrollBar) (val : Int) : QScrollBar := { b with value := b.bound val }

/-- The call `QAbstractSlider::setRange`: the maximum is raised to the minimum
if it is below it, and when the range changed the value is bound again. -/
def setRange (b : QScrollBar) (lo hi : Int) : QScrollBar :=
  let r : QScrollBar := { b with minimum := lo, maximum := max lo hi }
  if b.minimum ≠ r.minimum ∨ b.maximum ≠ r.maximum then r.setValue r.value else r

/-- The call `QAbstractSlider::setMaximum`: `setRange(qMin(minimum, max), max)`. -/
def setMaximum (b : QScrollBar) (hi : Int) : QScrollBar := b.setRange (min b.minimum hi) hi

end QScrollBar

/-- The buttons of a `QMouseEvent` the view distinguishes. -/
inductive MouseButton where
  | LeftButton
  | RightButton
  | MiddleButton
  deriving DecidableEq, Repr

/-- The keys of a `QKeyEvent` the view distinguishes. -/
inductive Key where
  | Key_X
  | Key_N
  | other (code : Nat)
  deriving DecidableEq, Repr

/-! ## The view -/

/-- What the view sends outwards. -/
inductive Effect where
  /-- The call `this->update()`, a request to redraw the widget. -/
  | update
  /-- The signal `addressChanged(address)`. -/
  | addressChanged (address : REDasm.address_t)
  /-- The call `m_renderer->render(first, count, &painter)`. -/
  | render (first count : Int)
  /-- The call `QInputDialog::getText` with its title, label and initial text. -/
  | getText (title label text : QString)
  /-- The call `QMessageBox::warning`. -/
  | warning (title text : QString)
  /-- The call `QMessageBox::information`. -/
  | information (title text : QString)
  /-- The modal `ReferencesDialog` opened for a symbol. -/
  | referencesDialog (symbol : REDasm.Symbol)
  deriving DecidableEq, Repr

/-- Modelled from the spec: the state of the `ListingTextRenderer` that the
view changes, the blink flag flipped by `toggleCursor`. -/
structure ListingTextRenderer where
  cursoractive : Bool
  deriving DecidableEq, Repr

/-- Modelled from the spec: `ListingTextRenderer::toggleCursor` flips the
blink flag and changes nothing else. -/
def ListingTextRenderer.toggleCursor (r : ListingTextRenderer) : ListingTextRenderer :=
  { r with cursoractive := !r.cursoractive }

/-- The state of a `DisassemblerTextView`.  The fields `m_*` are the data
members of the class (`none` for a `NULL` pointer); `height`, `fontHeight` and
`verticalScrollBar` are the state of the underlying `QAbstractScrollArea` the
class reads (`fontHeight` is `fontMetrics().height()`); `blinking` tells whether
`m_blinktimer` runs; `valueChanged` counts the connections made from the scroll
bar's signal `valueChanged` to the redraw lambda; `log` is the output so far. -/
structure DisassemblerTextView where
  m_issymboladdressvalid : Bool
  m_emitmode : Nat
  m_renderer : Option ListingTextRenderer
  m_disassembler : Option REDasm.DisassemblerAPI
  m_currentaddress : REDasm.address_t
  m_symboladdress : REDasm.address_t
  blinking : Bool
  height : Int
  fontHeight : Int
  verticalScrollBar : QScrollBar
  valueChanged : Nat
  log : List Effect
  deriving DecidableEq, Repr

namespace DisassemblerTextView

/-- The value `INT64_MAX` the constructor stores in `m_currentaddress`. -/
def INT64_MAX : Nat := 9223372036854775807

/-- The emit mode `DisassemblerTextView::Normal`. -/
def Normal : Nat := 0

/-- The constructor, for a widget of the given pixel height, a font of the
given line height and the scroll bar the scroll area was created with: the
members are initialised (`m_renderer` and `m_disassembler` to `NULL`), the
scroll bar value is set to 0 and the blink timer is created but not started. -/
def new (height fontHeight : Int) (bar : QScrollBar) : DisassemblerTextView :=
  { m_issymboladdressvalid := false
    m_emitmode := Normal
    m_renderer := none
    m_disassembler := none
    m_currentaddress := INT64_MAX
    m_symboladdress := 0
    blinking := false
    height := height
    fontHeight := fontHeight
    verticalScrollBar := bar.setValue 0
    valueChanged := 0
    log := [] }

/-- One output is appended to the log. -/
def emit (v : DisassemblerTextView) (e : Effect) : DisassemblerTextView :=
  { v with log := v.log ++ [e] }

/-- The call `this->update()`. -/
def update (v : DisassemblerTextView) : DisassemblerTextView := v.emit Effect.update

/-- The lambdas connected to the scroll bar's `valueChanged` run: each one
calls `this->update()`. -/
def onValueChanged (v : DisassemblerTextView) : DisassemblerTextView :=
  { v with log := v.log ++ List.replicate v.valueChanged Effect.update }

/-- A change `f` of the vertical scroll bar, followed by the delivery of
`valueChanged` to the connected lambdas when the value is not what it was. -/
def withScrollBar (v : DisassemblerTextView) (f : QScrollBar → QScrollBar) :
    DisassemblerTextView :=
  let w := { v with verticalScrollBar := f v.verticalScrollBar }
  if w.verticalScrollBar.value = v.verticalScrollBar.value then w else w.onValueChanged

/-- The member function `setDisassembler`: the view subscribes to the events
`finished` and `changed`, sets the scroll range to `[0, doc->size()]`, connects
the redraw lambda to `valueChanged`, stores the disassembler, creates the
renderer, starts the blink timer and requests a redraw. -/
def setDisassembler (v : DisassemblerTextView) (disassembler : REDasm.DisassemblerAPI) :
    DisassemblerTextView :=
  let doc := { disassembler.document with changed := disassembler.document.changed + 1 }
  let d := { disassembler with finished := disassembler.finished + 1, document := doc }
  let v1 := v.withScrollBar (fun b => b.setRange 0 (doc.size : Int))
  let v2 := { v1 with valueChanged := v1.valueChanged + 1 }
  let v3 := { v2 with m_disassembler := some d
                      m_renderer := some { cursoractive := false }
                      blinking := true }
  v3.update

/-- The member function `visibleLines`: `std::ceil(height() / fm.height())`.
Both operands are `int`, so the quotient is the truncated integer quotient, and
`std::ceil` is applied to that integer. -/
def visibleLines (v : DisassemblerTextView) : Option Int :=
  if v.fontHeight = 0 then none
  else some (Int.ceil ((Int.tdiv v.height v.fontHeight : Int) : ℚ))

/-- The member function `lastVisibleLine`. -/
def lastVisibleLine (v : DisassemblerTextView) : Option Int := do
  let n ← v.visibleLines
  pure (v.verticalScrollBar.value + n)

/-- The member function `isLineVisible`; the right operand of `&&` is only
evaluated when the left one holds. -/
def isLineVisible (v : DisassemblerTextView) (line : Int) : Option Bool :=
  if line ≥ v.verticalScrollBar.value then do
    let last ← v.lastVisibleLine
    pure (decide (line < last))
  else some false

/-- The member function `moveToSelection`. -/
def moveToSelection (v : DisassemblerTextView) : Option DisassemblerTextView := do
  let d ← v.m_disassembler
  let doc := d.document
  let cur := doc.cursor
  let visible ← v.isLineVisible cur.currentLine
  let v1 := if !visible then v.withScrollBar (fun b => b.setValue cur.currentLine) else v.update
  match doc.itemAt cur.currentLine with
  | some item => pure (v1.emit (Effect.addressChanged item.address))
  | none => pure v1

/-- The event `selectionChanged` is raised: every handler bound to it, that is
`moveToSelection` once per binding, runs in turn. -/
def raiseSelectionChanged : Nat → DisassemblerTextView → Option DisassemblerTextView
  | 0, v => some v
  | n + 1, v => do
    let v1 ← v.moveToSelection
    raiseSelectionChanged n v1

/-- Modelled from the spec: the call `doc->cursor()->select(line, column)` made
by the view: the cursor takes the position and raises `selectionChanged`. -/
def select (v : DisassemblerTextView) (line column : Int) : Option DisassemblerTextView := do
  let d ← v.m_disassembler
  let cur := d.document.cursor.moveTo line column
  let v1 := { v with m_disassembler := some { d with document := { d.document with cursor := cur } } }
  raiseSelectionChanged cur.selectionChanged v1

/-- The member function `goTo(REDasm::ListingItem*)`. -/
def goToItem (v : DisassemblerTextView) (item : REDasm.ListingItem) :
    Option DisassemblerTextView := do
  let d ← v.m_disassembler
  let doc := d.document
  let idx := doc.indexOf item
  if idx = -1 then pure v
  else v.select idx 0

/-- The member function `goTo(address_t)`.  Dereferencing an iterator gives
the item at its position (a fault past the end, which the test before it
excludes). -/
def goTo (v : DisassemblerTextView) (address : REDasm.address_t) :
    Option DisassemblerTextView := do
  let d ← v.m_disassembler
  let doc := d.document
  let it := doc.instructionItem address
  let it := if it = doc.end then doc.symbolItem address else it
  if it = doc.end then pure v
  else do
    let item ← doc.items[it]?
    v.goToItem item

/-- The member function `goBack`, whose body is empty. -/
def goBack (v : DisassemblerTextView) : DisassemblerTextView := v

/-- The member function `goForward`, whose body is empty. -/
def goForward (v : DisassemblerTextView) : DisassemblerTextView := v

/-- The capability query `canGoBack`. -/
def canGoBack (_v : DisassemblerTextView) : Bool := false

/-- The capability query `canGoForward`. -/
def canGoForward (_v : DisassemblerTextView) : Bool := false

/-- The accessor `currentAddress`. -/
def currentAddress (v : DisassemblerTextView) : REDasm.address_t := v.m_currentaddress

/-- The accessor `symbolAddress`. -/
def symbolAddress (v : DisassemblerTextView) : REDasm.address_t := v.m_symboladdress

/-- The member function `setEmitMode`. -/
def setEmitMode (v : DisassemblerTextView) (emitmode : Nat) : DisassemblerTextView :=
  { v with m_emitmode := emitmode }

/-- The slot `blinkCursor`, run by the blink timer. -/
def blinkCursor (v : DisassemblerTextView) : Option DisassemblerTextView := do
  let d ← v.m_disassembler
  let cur := d.document.cursor
  let r ← v.m_renderer
  let v1 := { v with m_renderer := some r.toggleCursor }
  let visible ← v1.isLineVisible cur.currentLine
  if !visible then pure v1 else pure v1.update

/-- The handler `paintEvent`: nothing is done without a renderer, otherwise the
renderer draws `visibleLines()` lines from the scroll offset on. -/
def paintEvent (v : DisassemblerTextView) : Option DisassemblerTextView :=
  match v.m_renderer with
  | none => some v
  | some _ => do
    let n ← v.visibleLines
    pure (v.emit (Effect.render v.verticalScrollBar.value n))

/-- The handler `mousePressEvent`.  The argument `cp` is the cursor position
that `m_renderer->hitTest(e->pos(), verticalScrollBar())` answers for the
event; the renderer's layout is not part of the widget file.  The base class
handler called at the end leaves the state as it is. -/
def mousePressEvent (v : DisassemblerTextView) (button : MouseButton) (cp : Int × Int) :
    Option DisassemblerTextView :=
  if button = MouseButton.LeftButton then do
    let _ ← v.m_disassembler
    let _ ← v.m_renderer
    v.select cp.1 cp.2
  else some v

/-- The handler `onDisassemblerFinished`: `moveToSelection` is added to the
cursor's event `selectionChanged` and then called once. -/
def onDisassemblerFinished (v : DisassemblerTextView) : Option DisassemblerTextView := do
  let d ← v.m_disassembler
  let doc := d.document
  let cur := { doc.cursor with selectionChanged := doc.cursor.selectionChanged + 1 }
  let v1 := { v with m_disassembler := some { d with document := { doc with cursor := cur } } }
  v1.moveToSelection

/-- The handler `onDocumentChanged` for a change event with the given line
index; the right operand of `||` is only evaluated when the left one fails. -/
def onDocumentChanged (v : DisassemblerTextView) (index : Int) :
    Option DisassemblerTextView := do
  let d ← v.m_disassembler
  let v1 := v.withScrollBar (fun b => b.setMaximum (d.document.size : Int))
  if index < v1.verticalScrollBar.value then pure v1
  else do
    let n ← v1.visibleLines
    if index > v1.verticalScrollBar.value + n then pure v1 else pure v1.update

/-- The member function `showReferenceDialog`. -/
def showReferenceDialog (v : DisassemblerTextView) (symbol : Option REDasm.Symbol) :
    Option DisassemblerTextView :=
  match symbol with
  | none => some v
  | some s => do
    let d ← v.m_disassembler
    if d.getReferencesCount s.address = 0 then
      pure (v.emit (Effect.information (String.toList "No References")
        (String.toList "There are no references to " ++ s.name)))
    else pure (v.emit (Effect.referencesDialog s))

/-- The name `s.simplified().replace(" ", "_")` that `rename` computes for the
entered text `s`. -/
def newsym (s : QString) : QString := (QString.simplified s).replace ' ' '_'

/-- The member function `rename`.  The list `answers` holds the texts the user
enters in the successive input dialogs; when it is used up the dialog is
cancelled, for which `QInputDialog::getText` returns an empty text.  The code
that would commit the new name is commented out in the source, so `newsym` is
computed and dropped. -/
def rename (v : DisassemblerTextView) (address : REDasm.address_t) (answers : List QString) :
    Option DisassemblerTextView :=
  if !v.m_issymboladdressvalid then some v
  else
    match v.m_disassembler with
    | none => none
    | some d =>
      match d.document.symbol address with
      | none => some v
      | some symbol =>
        let symboltable := d.document.symbols
        let sym := symbol.name
        let v1 := v.emit (Effect.getText (String.toList "Rename " ++ sym)
          (String.toList "Symbol name:") sym)
        match answers with
        | [] => some v1
        | s :: rest =>
          if s.isEmpty then some v1
          else
            match symboltable.symbol s with
            | some _ =>
              rename (v1.emit (Effect.warning (String.toList "Rename failed")
                (String.toList "Duplicate symbol name"))) address rest
            | none =>
              let _newsym := newsym s
              some v1

/-- The handler `keyPressEvent`; `answers` are the texts entered in the input
dialogs the key may open. -/
def keyPressEvent (v : DisassemblerTextView) (key : Key) (answers : List QString) :
    Option DisassemblerTextView :=
  if key = Key.Key_X then do
    let d ← v.m_disassembler
    let word := d.document.cursor.wordUnderCursor
    if word.isEmpty then pure v
    else v.showReferenceDialog (d.document.symbolNamed word)
  else if key = Key.Key_N then v.rename v.m_symboladdress answers
  else some v

/-- The scroll bar is moved by the user (or by the toolkit) to `value`: the
slot `setValue` runs and the connected lambdas are told of a change. -/
def scrollTo (v : DisassemblerTextView) (value : Int) : DisassemblerTextView :=
  v.withScrollBar (fun b => b.setValue value)

/-- The widget is resized by the toolkit to the pixel height `h`. -/
def resize (v : DisassemblerTextView) (h : Int) : DisassemblerTextView :=
  { v with height := h }

/-- The disassembly engine replaces the items of the attached document and the
document raises `changed` for the line `index`: every `onDocumentChanged`
bound to the event runs. -/
def documentChanged (v : DisassemblerTextView) (items : List REDasm.ListingItem) (index : Int) :
    Option DisassemblerTextView := do
  let d ← v.m_disassembler
  let v1 := { v with m_disassembler := some { d with document := { d.document with items := items } } }
  Nat.iterate (fun s => s.bind (fun w => w.onDocumentChanged index)) d.document.changed (some v1)

end DisassemblerTextView

/-! ## Notions used in the statements -/

namespace DisassemblerTextView

/-- The cursor of the attached document (`m_disassembler->document()->cursor()`),
`none` when no disassembler is attached. -/
def cursor (v : DisassemblerTextView) : Option REDasm.ListingCursor :=
  v.m_disassembler.map (fun d => d.document.cursor)

/-- The states of a view that can be reached from the constructor by
`setDisassembler` followed by any sequence of: scroll bar movements, resizes,
document changes with their notification, the navigation operations, the
selection of a position in the cursor, and the event handlers. -/
inductive Reachable : DisassemblerTextView → Prop where
  | setDisassembler (height fontHeight : Int) (bar : QScrollBar)
      (disassembler : REDasm.DisassemblerAPI) :
      Reachable ((DisassemblerTextView.new height fontHeight bar).setDisassembler disassembler)
  | scrollTo {v : DisassemblerTextView} (value : Int) :
      Reachable v → Reachable (v.scrollTo value)
  | resize {v : DisassemblerTextView} (h : Int) :
      Reachable v → Reachable (v.resize h)
  | documentChanged {v w : DisassemblerTextView} (items : List REDasm.ListingItem)
      (index : Int) :
      Reachable v → v.documentChanged items index = some w → Reachable w
  | onDocumentChanged {v w : DisassemblerTextView} (index : Int) :
      Reachable v → v.onDocumentChanged index = some w → Reachable w
  | goTo {v w : DisassemblerTextView} (address : REDasm.address_t) :
      Reachable v → v.goTo address = some w → Reachable w
  | goToItem {v w : DisassemblerTextView} (item : REDasm.ListingItem) :
      Reachable v → v.goToItem item = some w → Reachable w
  | select {v w : DisassemblerTextView} (line column : Int) :
      Reachable v → v.select line column = some w → Reachable w
  | moveToSelection {v w : DisassemblerTextView} :
      Reachable v → v.moveToSelection = some w → Reachable w
  | onDisassemblerFinished {v w : DisassemblerTextView} :
      Reachable v → v.onDisassemblerFinished = some w → Reachable w
  | blinkCursor {v w : DisassemblerTextView} :
      Reachable v → v.blinkCursor = some w → Reachable w
  | paintEvent {v w : DisassemblerTextView} :
      Reachable v → v.paintEvent = some w → Reachable w
  | mousePressEvent {v w : DisassemblerTextView} (button : MouseButton) (cp : Int × Int) :
      Reachable v → v.mousePressEvent button cp = some w → Reachable w
  | keyPressEvent {v w : DisassemblerTextView} (key : Key) (answers : List QString) :
      Reachable v → v.keyPressEvent key answers = some w → Reachable w

/-- The scroll bar of the view is in step with a document of `size` lines to
which the view has subscribed: the range is `[0, size]` and holds the value. -/
def InStep (v : DisassemblerTextView) : Prop :=
  ∃ d, v.m_disassembler = some d ∧ 1 ≤ d.document.changed ∧
    v.verticalScrollBar.minimum = 0 ∧
    v.verticalScrollBar.maximum = (d.document.size : Int) ∧
    0 ≤ v.verticalScrollBar.value ∧
    v.verticalScrollBar.value ≤ v.verticalScrollBar.maximum

/-- The weaker condition that holds between a change of the document and its
notification: the value lies in a range that starts at 0. -/
def Lagging (v : DisassemblerTextView) : Prop :=
  ∃ d, v.m_disassembler = some d ∧ 1 ≤ d.document.changed ∧
    v.verticalScrollBar.minimum = 0 ∧
    0 ≤ v.verticalScrollBar.value ∧
    v.verticalScrollBar.value ≤ v.verticalScrollBar.maximum

/-- Several outputs are appended to the log in turn. -/
def emitAll (v : DisassemblerTextView) (es : List Effect) : DisassemblerTextView :=
  { v with log := v.log ++ es }

/-- The input dialog `rename` opens for a symbol: the title is `Rename ` followed
by the symbol's name, the label is `Symbol name:` and the initial text is the
symbol's name. -/
def renamePrompt (symbol : REDasm.Symbol) : Effect :=
  Effect.getText (String.toList "Rename " ++ symbol.name) (String.toList "Symbol name:")
    symbol.name

/-- The message box `rename` shows when the entered name is taken. -/
def duplicateWarning : Effect :=
  Effect.warning (String.toList "Rename failed") (String.toList "Duplicate symbol name")

end DisassemblerTextView

/-! ## The normalized name of the specification -/

/-- The first word of a text, empty when the text starts with whitespace or is
empty, and the words after it: a word is a maximal run of characters that are
not whitespace. -/
def QString.splitWords : QString → QString × List QString
  | [] => ([], [])
  | c :: cs =>
    if QChar.isSpace c then
      ([], if (QString.splitWords cs).1 = [] then (QString.splitWords cs).2
           else (QString.splitWords cs).1 :: (QString.splitWords cs).2)
    else (c :: (QString.splitWords cs).1, (QString.splitWords cs).2)

/-- The words of a text. -/
def QString.words (s : QString) : List QString :=
  if (QString.splitWords s).1 = [] then (QString.splitWords s).2
  else (QString.splitWords s).1 :: (QString.splitWords s).2

/-- The normalized name in the words of the specification: leading and trailing
whitespace is removed and every internal run of whitespace is replaced by
exactly one underscore, that is, the words of the text joined by underscores. -/
def normalizedName (s : QString) : QString := List.intercalate ['_'] (QString.words s)

/-! ## Sample data -/

namespace Sample
open REDasm

/-- The symbols `foo` at 0x1000 and `bar` at 0x2000. -/
def symbols : SymbolTable :=
  [{ address := 4096, name := String.toList "foo" },
   { address := 8192, name := String.toList "bar" }]

/-- A cursor on line 0 with nothing selected and no handler bound. -/
def cursor : ListingCursor :=
  { line := 0, column := 0, selection := none, word := [], selectionChanged := 0 }

/-- A document of `n` instruction lines, line `i` at address `0x1000 + i`, with
the sample symbols. -/
def document (n : Nat) : ListingDocument :=
  { items := (List.range n).map
      (fun i => { address := 4096 + i, type := ItemType.InstructionItem })
    symbols := symbols
    cursor := cursor
    changed := 0 }

/-- A disassembler holding the document of `n` lines, nobody subscribed. -/
def disassembler (n : Nat) : DisassemblerAPI :=
  { document := document n, references := [], finished := 0 }

/-- A freshly constructed view, `h` pixels high with lines of `l` pixels. -/
def fresh (h l : Int) : DisassemblerTextView :=
  DisassemblerTextView.new h l { minimum := 0, maximum := 0, value := 0 }

/-- The view of height `h` and line height `l` after `setDisassembler` with the
document of `n` lines. -/
def attached (n : Nat) (h l : Int) : DisassemblerTextView :=
  (fresh h l).setDisassembler (disassembler n)

/-- A disassembler holding the document of `n` lines whose cursor is on line
`c` and has `k` handlers bound to `selectionChanged`. -/
def disassemblerAt (n : Nat) (c : Int) (k : Nat) : DisassemblerAPI :=
  { document := { document n with cursor := { cursor with line := c, selectionChanged := k } }
    references := []
    finished := 0 }

/-- The view of height `h` and line height `l` showing the document of `n`
lines from scroll offset `s` on, with the cursor on line `c` and `k` handlers
bound to `selectionChanged`: `setDisassembler` followed by a scroll to `s`. -/
def view (n : Nat) (h l s c : Int) (k : Nat) : DisassemblerTextView :=
  ((fresh h l).setDisassembler (disassemblerAt n c k)).scrollTo s

/-- The disassembler as the view holds it after `setDisassembler`: the view has
subscribed once to `finished` and once to `changed`. -/
def subscribed (d : DisassemblerAPI) : DisassemblerAPI :=
  { d with finished := d.finished + 1
           document := { d.document with changed := d.document.changed + 1 } }

/-- A document of four lines: the label and the instruction at 0x1000, the
instruction at 0x1001, and a data label at 0x2000 that has no instruction; one
handler is bound to the cursor's `selectionChanged`. -/
def mixedDocument : ListingDocument :=
  { items := [{ address := 4096, type := ItemType.SymbolItem },
              { address := 4096, type := ItemType.InstructionItem },
              { address := 4097, type := ItemType.InstructionItem },
              { address := 8192, type := ItemType.SymbolItem }]
    symbols := symbols
    cursor := { cursor with selectionChanged := 1 }
    changed := 0 }

/-- The disassembler holding `mixedDocument`. -/
def mixedDisassembler : DisassemblerAPI :=
  { document := mixedDocument, references := [], finished := 0 }

/-- A view 20 pixels high with lines of 10 pixels after `setDisassembler` with
`mixedDisassembler`. -/
def mixedView : DisassemblerTextView := (fresh 20 10).setDisassembler mixedDisassembler

/-- The view that showed ten lines from scroll offset 10 (the end of its scroll
range) when the engine cut the document down to five lines: 2 lines are
visible, the scroll bar is still at 10 of `[0, 10]`, and the change event has
not been handled yet. -/
def shrunk : DisassemblerTextView :=
  { view 10 20 10 10 0 0 with m_disassembler := some (subscribed (disassemblerAt 5 0 0)) }

/-- The view on the document of `n` lines with the sample symbols, in the state
in which rename is offered: the symbol-address-valid flag is set and the symbol
address is `address`. -/
def offered (n : Nat) (address : address_t) : DisassemblerTextView :=
  { attached n 20 10 with m_issymboladdressvalid := true, m_symboladdress := address }

end Sample

/-! # Theorems -/

namespace DisassemblerTextView
open REDasm

/-! ## Elementary facts about the embedding -/
@[simp] theorem emit_m_disassembler (v : DisassemblerTextView) (e : Effect) :
    (v.emit e).m_disassembler = v.m_disassembler := rfl

@[simp] theorem emit_verticalScrollBar (v : DisassemblerTextView) (e : Effect) :
    (v.emit e).verticalScrollBar = v.verticalScrollBar := rfl

@[simp] theorem emit_height (v : DisassemblerTextView) (e : Effect) :
    (v.emit e).height = v.height := rfl

@[simp] theorem emit_fontHeight (v : DisassemblerTextView) (e : Effect) :
    (v.emit e).fontHeight = v.fontHeight := rfl

@[simp] theorem emit_valueChanged (v : DisassemblerTextView) (e : Effect) :
    (v.emit e).valueChanged = v.valueChanged := rfl

@[simp] theorem emit_log (v : DisassemblerTextView) (e : Effect) :
    (v.emit e).log = v.log ++ [e] := rfl

@[simp] theorem emit_valid (v : DisassemblerTextView) (e : Effect) :
    (v.emit e).m_issymboladdressvalid = v.m_issymboladdressvalid := rfl

@[simp] theorem withScrollBar_m_disassembler (v : DisassemblerTextView) (f : QScrollBar → QScrollBar) :
    (v.withScrollBar f).m_disassembler = v.m_disassembler := by
  simp only [withScrollBar, onValueChanged]; split <;> rfl

@[simp] theorem withScrollBar_verticalScrollBar (v : DisassemblerTextView)
    (f : QScrollBar → QScrollBar) :
    (v.withScrollBar f).verticalScrollBar = f v.verticalScrollBar := by
  simp only [withScrollBar, onValueChanged]; split <;> rfl

@[simp] theorem withScrollBar_height (v : DisassemblerTextView) (f : QScrollBar → QScrollBar) :
    (v.withScrollBar f).height = v.height := by
  simp only [withScrollBar, onValueChanged]; split <;> rfl

@[simp] theorem withScrollBar_fontHeight (v : DisassemblerTextView) (f : QScrollBar → QScrollBar) :
    (v.withScrollBar f).fontHeight = v.fontHeight := by
  simp only [withScrollBar, onValueChanged]; split <;> rfl

@[simp] theorem withScrollBar_valueChanged (v : DisassemblerTextView)
    (f : QScrollBar → QScrollBar) :
    (v.withScrollBar f).valueChanged = v.valueChanged := by
  simp only [withScrollBar, onValueChanged]; split <;> rfl

theorem withScrollBar_log (v : DisassemblerTextView) (f : QScrollBar → QScrollBar) :
    (v.withScrollBar f).log = v.log ++ List.replicate
      (if (f v.verticalScrollBar).value = v.verticalScrollBar.value then 0 else v.valueChanged)
      Effect.update := by
  simp only [withScrollBar, onValueChanged]; split <;> simp_all

theorem visibleLines_eq_tdiv (v : DisassemblerTextView) (h : v.fontHeight ≠ 0) :
    v.visibleLines = some (Int.tdiv v.height v.fontHeight) := by
  simp [visibleLines, h]

theorem visibleLines_congr (v w : DisassemblerTextView) (h1 : w.height = v.height)
    (h2 : w.fontHeight = v.fontHeight) : w.visibleLines = v.visibleLines := by
  simp [visibleLines, h1, h2]

theorem isLineVisible_congr (v w : DisassemblerTextView) (line : Int) (h1 : w.height = v.height)
    (h2 : w.fontHeight = v.fontHeight)
    (h3 : w.verticalScrollBar.value = v.verticalScrollBar.value) :
    w.isLineVisible line = v.isLineVisible line := by
  simp [isLineVisible, lastVisibleLine, visibleLines_congr v w h1 h2, h3]

theorem isLineVisible_eq (v : DisassemblerTextView) (line n : Int)
    (hn : v.visibleLines = some n) :
    v.isLineVisible line =
      some (decide (v.verticalScrollBar.value ≤ line ∧ line < v.verticalScrollBar.value + n)) := by
  unfold isLineVisible lastVisibleLine
  by_cases h : line ≥ v.verticalScrollBar.value
  · simp [h, hn]
  · simp [h, hn]

theorem bound_of_mem (b : QScrollBar) (x : Int) (h1 : b.minimum ≤ x) (h2 : x ≤ b.maximum) :
    b.bound x = x := by
  unfold QScrollBar.bound
  omega

/-! ## The scroll offset after `moveToSelection` -/

/-- What `moveToSelection` does once the visibility test has answered `b`. -/
theorem moveToSelection_of_isLineVisible (v : DisassemblerTextView) (d : DisassemblerAPI)
    (b : Bool) (hd : v.m_disassembler = some d)
    (hb : v.isLineVisible d.document.cursor.currentLine = some b) :
    v.moveToSelection = some
      (let v1 := if b then v.update
                 else v.withScrollBar (fun s => s.setValue d.document.cursor.currentLine)
       match d.document.itemAt d.document.cursor.currentLine with
       | some item => v1.emit (Effect.addressChanged item.address)
       | none => v1) := by
  unfold moveToSelection
  simp only [hd, Option.bind_eq_bind, Option.some_bind, hb]
  cases b <;> cases d.document.itemAt d.document.cursor.currentLine <;> simp

/-- C1: with a document of size `N` attached, scroll range `[0, N]`, scroll offset
`s`, `n` visible lines and the cursor on a line `c` with `0 ≤ c < N`,
`moveToSelection` returns, and the scroll offset afterwards is `c` when `c` was
not visible (`c < s` or `c ≥ s + n`) and is still `s` when `c` was visible. -/
theorem moveToSelection_scroll (v : DisassemblerTextView) (d : DisassemblerAPI) (n : Int)
    (hd : v.m_disassembler = some d)
    (hmin : v.verticalScrollBar.minimum = 0)
    (hmax : v.verticalScrollBar.maximum = (d.document.size : Int))
    (hc0 : 0 ≤ d.document.cursor.currentLine)
    (hc1 : d.document.cursor.currentLine < (d.document.size : Int))
    (hn : v.visibleLines = some n) :
    ∃ w, v.moveToSelection = some w ∧
      w.verticalScrollBar.value =
        if d.document.cursor.currentLine < v.verticalScrollBar.value ∨
            d.document.cursor.currentLine ≥ v.verticalScrollBar.value + n
        then d.document.cursor.currentLine else v.verticalScrollBar.value := by
  refine ⟨_, moveToSelection_of_isLineVisible v d _ hd (isLineVisible_eq v _ n hn), ?_⟩
  have hb : v.verticalScrollBar.bound d.document.cursor.currentLine
      = d.document.cursor.currentLine := bound_of_mem _ _ (by omega) (by omega)
  by_cases hv : v.verticalScrollBar.value ≤ d.document.cursor.currentLine ∧
      d.document.cursor.currentLine < v.verticalScrollBar.value + n
  · have hneg : ¬ (d.document.cursor.currentLine < v.verticalScrollBar.value ∨
        d.document.cursor.currentLine ≥ v.verticalScrollBar.value + n) := by omega
    rw [if_neg hneg]
    cases hi : d.document.itemAt d.document.cursor.currentLine <;> simp [hv, update]
  · have hpos : (d.document.cursor.currentLine < v.verticalScrollBar.value ∨
        d.document.cursor.currentLine ≥ v.verticalScrollBar.value + n) := by omega
    rw [if_pos hpos]
    cases hi : d.document.itemAt d.document.cursor.currentLine <;>
      simp [hv, QScrollBar.setValue, hb]

/-! ## The visible line count -/

/-- C5: for a viewport of 25 pixels and lines of 10 pixels `visibleLines`
answers 2, the truncated quotient, whereas the quotient rounded up is 3. -/
theorem visibleLines_truncates :
    (Sample.fresh 25 10).visibleLines = some 2 ∧ Int.ceil ((25 : ℚ) / 10) = 3 := by
  constructor
  · decide
  · rw [Int.ceil_eq_iff]; norm_num

/-- The general form of the previous fact: for `h ≥ 0` and `l > 0` the answer
of `visibleLines` is the quotient rounded down. -/
theorem visibleLines_eq_floor (v : DisassemblerTextView) (h0 : 0 ≤ v.height)
    (h1 : 0 < v.fontHeight) : v.visibleLines = some (v.height / v.fontHeight) := by
  rw [visibleLines_eq_tdiv v (by omega), Int.tdiv_eq_ediv h0 (by omega)]

/-! ## The view before a disassembler is attached -/

/-- C9: in the freshly constructed state, where no disassembler is attached,
`goTo(address)`, `goTo(item)`, `blinkCursor`, `moveToSelection`,
`onDocumentChanged`, a press of the left button and a press of the key X all
dereference the `NULL` member `m_disassembler` (a fault); `paintEvent`, which
tests `m_renderer` first, and a press of the key N, which `rename` stops at the
symbol-address-valid flag, leave the state as it is. -/
theorem fresh_view_faults (height fontHeight : Int) (bar : QScrollBar) (address : address_t)
    (item : ListingItem) (index : Int) (cp : Int × Int) (answers : List QString) :
    (DisassemblerTextView.new height fontHeight bar).goTo address = none ∧
    (DisassemblerTextView.new height fontHeight bar).goToItem item = none ∧
    (DisassemblerTextView.new height fontHeight bar).blinkCursor = none ∧
    (DisassemblerTextView.new height fontHeight bar).moveToSelection = none ∧
    (DisassemblerTextView.new height fontHeight bar).onDocumentChanged index = none ∧
    (DisassemblerTextView.new height fontHeight bar).mousePressEvent MouseButton.LeftButton cp
      = none ∧
    (DisassemblerTextView.new height fontHeight bar).keyPressEvent Key.Key_X answers = none ∧
    (DisassemblerTextView.new height fontHeight bar).paintEvent
      = some (DisassemblerTextView.new height fontHeight bar) ∧
    (DisassemblerTextView.new height fontHeight bar).keyPressEvent Key.Key_N answers
      = some (DisassemblerTextView.new height fontHeight bar) := by
  refine ⟨rfl, rfl, rfl, rfl, rfl, rfl, rfl, rfl, ?_⟩
  cases answers <;> rfl

/-! ## Visibility of the cursor line after `moveToSelection` -/

/-- C10, refuted as stated: document of 10 lines, scroll range `[0, 10]`, scroll
offset 0, cursor on line 5, viewport height 0 and line height 10:
`moveToSelection` scrolls to line 5, where `visibleLines` is 0 and line 5 is
still not visible. -/
theorem moveToSelection_not_visible_counterexample :
    ((Sample.view 10 0 10 0 5 1).m_disassembler.map (fun d => d.document.size)) = some 10 ∧
    ((Sample.view 10 0 10 0 5 1).m_disassembler.map
      (fun d => d.document.cursor.currentLine)) = some 5 ∧
    (Sample.view 10 0 10 0 5 1).verticalScrollBar = { minimum := 0, maximum := 10, value := 0 } ∧
    (Sample.view 10 0 10 0 5 1).height = 0 ∧ (Sample.view 10 0 10 0 5 1).fontHeight = 10 ∧
    ((Sample.view 10 0 10 0 5 1).moveToSelection.map (fun w => w.verticalScrollBar.value))
      = some 5 ∧
    ((Sample.view 10 0 10 0 5 1).moveToSelection.bind (fun w => w.visibleLines)) = some 0 ∧
    ((Sample.view 10 0 10 0 5 1).moveToSelection.bind (fun w => w.isLineVisible 5))
      = some false := by
  decide

/-- C10, amended: with a document of size `N` attached, scroll range `[0, N]`, the
cursor on a line `c` with `0 ≤ c < N`, and a viewport at least one line high
(`h ≥ l > 0`), `moveToSelection` returns and the cursor line is visible for
the new scroll offset. -/
theorem moveToSelection_visible (v : DisassemblerTextView) (d : DisassemblerAPI)
    (hd : v.m_disassembler = some d)
    (hmin : v.verticalScrollBar.minimum = 0)
    (hmax : v.verticalScrollBar.maximum = (d.document.size : Int))
    (hc0 : 0 ≤ d.document.cursor.currentLine)
    (hc1 : d.document.cursor.currentLine < (d.document.size : Int))
    (hl : 0 < v.fontHeight) (hh : v.fontHeight ≤ v.height) :
    ∃ w, v.moveToSelection = some w ∧
      w.isLineVisible d.document.cursor.currentLine = some true := by
  have hn : v.visibleLines = some (v.height / v.fontHeight) :=
    visibleLines_eq_floor v (by omega) hl
  have hpos : 1 ≤ v.height / v.fontHeight := Int.le_ediv_of_mul_le hl (by omega)
  have hb : v.verticalScrollBar.bound d.document.cursor.currentLine
      = d.document.cursor.currentLine := bound_of_mem _ _ (by omega) (by omega)
  refine ⟨_, moveToSelection_of_isLineVisible v d _ hd (isLineVisible_eq v _ _ hn), ?_⟩
  by_cases hv : v.verticalScrollBar.value ≤ d.document.cursor.currentLine ∧
      d.document.cursor.currentLine < v.verticalScrollBar.value + v.height / v.fontHeight
  · cases hi : d.document.itemAt d.document.cursor.currentLine <;>
      simp only [hv, and_self, decide_True, if_true] <;>
      rw [isLineVisible_eq _ _ (v.height / v.fontHeight)
        (by rw [← hn]; exact visibleLines_congr v _ rfl rfl)] <;>
      simp [update, hv]
  · cases hi : d.document.itemAt d.document.cursor.currentLine <;>
      simp only [hv, decide_False, if_false, Bool.false_eq_true] <;>
      rw [isLineVisible_eq _ _ (v.height / v.fontHeight)
        (by rw [← hn]; apply visibleLines_congr <;> simp)] <;>
      simp [QScrollBar.setValue, hb] <;> omega

/-- C1 at a concrete state: 10 lines, 2 of them visible from offset 0, cursor on
line 5, which is not visible: the offset becomes 5. -/
theorem moveToSelection_scroll_witness :
    (Sample.view 10 20 10 0 5 1).m_disassembler
      = some (Sample.subscribed (Sample.disassemblerAt 10 5 1)) ∧
    (Sample.view 10 20 10 0 5 1).visibleLines = some 2 ∧
    ∃ w, (Sample.view 10 20 10 0 5 1).moveToSelection = some w ∧
      w.verticalScrollBar.value = 5 :=
  ⟨by decide, by decide,
    moveToSelection_scroll (Sample.view 10 20 10 0 5 1)
      (Sample.subscribed (Sample.disassemblerAt 10 5 1)) 2
      (by decide) (by decide) (by decide) (by decide) (by decide) (by decide)⟩

/-- C10 (amended) at a concrete state: 10 lines, viewport of 20 pixels with lines
of 10 pixels, cursor on line 5. -/
theorem moveToSelection_visible_witness :
    (Sample.view 10 20 10 0 5 1).m_disassembler
      = some (Sample.subscribed (Sample.disassemblerAt 10 5 1)) ∧
    ∃ w, (Sample.view 10 20 10 0 5 1).moveToSelection = some w ∧
      w.isLineVisible 5 = some true :=
  ⟨by decide,
    moveToSelection_visible (Sample.view 10 20 10 0 5 1)
      (Sample.subscribed (Sample.disassemblerAt 10 5 1))
      (by decide) (by decide) (by decide) (by decide) (by decide) (by decide) (by decide)⟩

/-! ## Navigation to an address -/
theorem item_eq_indexOf (doc : ListingDocument) (a : address_t) (t : ItemType) :
    doc.item a t = doc.items.indexOf { address := a, type := t } := by
  unfold ListingDocument.item List.indexOf
  congr 1
  funext i
  cases i with
  | mk ia it =>
    by_cases h : ia = a ∧ it = t
    · obtain ⟨rfl, rfl⟩ := h; simp
    · have : ¬ ((⟨ia, it⟩ : ListingItem) = ⟨a, t⟩) := by
        intro he; injection he with h1 h2; exact h ⟨h1, h2⟩
      simp [h, this]

theorem item_get (doc : ListingDocument) (a : address_t) (t : ItemType)
    (h : doc.item a t ≠ doc.end) :
    doc.items[doc.item a t]? = some { address := a, type := t } ∧
    doc.indexOf { address := a, type := t } = (doc.item a t : Int) := by
  have hle : doc.item a t ≤ doc.items.length := List.findIdx_le_length _
  have hlt : doc.item a t < doc.items.length := by
    unfold ListingDocument.end at h; omega
  rw [item_eq_indexOf] at hlt ⊢
  constructor
  · rw [List.getElem?_eq_getElem hlt, List.getElem_indexOf hlt]
  · unfold ListingDocument.indexOf
    rw [if_pos hlt]

theorem moveToSelection_frame (v : DisassemblerTextView) (d : DisassemblerAPI)
    (hd : v.m_disassembler = some d) (hf : v.fontHeight ≠ 0) :
    ∃ w, v.moveToSelection = some w ∧ w.m_disassembler = some d ∧
      w.fontHeight = v.fontHeight ∧ w.height = v.height ∧ w.valueChanged = v.valueChanged ∧
      w.verticalScrollBar.minimum = v.verticalScrollBar.minimum ∧
      w.verticalScrollBar.maximum = v.verticalScrollBar.maximum := by
  refine ⟨_, moveToSelection_of_isLineVisible v d _ hd
    (isLineVisible_eq v _ _ (visibleLines_eq_tdiv v hf)), ?_⟩
  cases hi : d.document.itemAt d.document.cursor.currentLine <;>
    (simp only []; split <;> simp [update, hd, QScrollBar.setValue])

theorem raiseSelectionChanged_frame (k : Nat) (v : DisassemblerTextView) (d : DisassemblerAPI)
    (hd : v.m_disassembler = some d) (hf : v.fontHeight ≠ 0) :
    ∃ w, raiseSelectionChanged k v = some w ∧ w.m_disassembler = some d ∧
      w.fontHeight = v.fontHeight ∧ w.height = v.height ∧ w.valueChanged = v.valueChanged ∧
      w.verticalScrollBar.minimum = v.verticalScrollBar.minimum ∧
      w.verticalScrollBar.maximum = v.verticalScrollBar.maximum := by
  induction k generalizing v with
  | zero => exact ⟨v, rfl, hd, rfl, rfl, rfl, rfl, rfl⟩
  | succ k ih =>
    obtain ⟨w1, h1, hd1, hf1, hh1, hv1, hmin1, hmax1⟩ := moveToSelection_frame v d hd hf
    obtain ⟨w, h2, hd2, hf2, hh2, hv2, hmin2, hmax2⟩ := ih w1 hd1 (by rw [hf1]; exact hf)
    refine ⟨w, ?_, hd2, by rw [hf2, hf1], by rw [hh2, hh1], by rw [hv2, hv1],
      by rw [hmin2, hmin1], by rw [hmax2, hmax1]⟩
    simp [raiseSelectionChanged, h1, h2]

theorem select_frame (v : DisassemblerTextView) (d : DisassemblerAPI) (line column : Int)
    (hd : v.m_disassembler = some d) (hf : v.fontHeight ≠ 0) :
    ∃ w, v.select line column = some w ∧
      w.m_disassembler = some
        { d with document := { d.document with cursor := d.document.cursor.moveTo line column } } ∧
      w.fontHeight = v.fontHeight ∧ w.height = v.height ∧ w.valueChanged = v.valueChanged ∧
      w.verticalScrollBar.minimum = v.verticalScrollBar.minimum ∧
      w.verticalScrollBar.maximum = v.verticalScrollBar.maximum := by
  unfold select
  simp only [hd, Option.bind_eq_bind, Option.some_bind]
  exact raiseSelectionChanged_frame _ _ _ rfl hf

/-- When the lookup of `goTo(address_t)` ends on the position `it` of an item of
kind `t`, the call is the selection of line `it`. -/
theorem goTo_eq_select (v : DisassemblerTextView) (d : DisassemblerAPI) (address : address_t)
    (t : ItemType) (hd : v.m_disassembler = some d)
    (hit : (if d.document.instructionItem address = d.document.end
            then d.document.symbolItem address else d.document.instructionItem address)
          = d.document.item address t)
    (hne : d.document.item address t ≠ d.document.end) :
    v.goTo address = v.select (d.document.item address t : Int) 0 := by
  obtain ⟨hget, hidx⟩ := item_get d.document address t hne
  unfold goTo
  simp only [hd, Option.bind_eq_bind, Option.some_bind, hit, hne, if_false, hget]
  unfold goToItem
  simp only [hd, Option.bind_eq_bind, Option.some_bind, hidx]
  rw [if_neg (by omega)]

/-- C2: with a document attached (and a font of non-zero height), `goTo(address)`
returns; when the instruction lookup finds an item, the cursor is afterwards
the old cursor moved to that item's line index (column 0); when it fails and
the symbol lookup finds an item, the cursor is moved to the symbol item's
line index; when both fail, the whole state, the cursor included, is as
before. -/
theorem goTo_selects (v : DisassemblerTextView) (d : DisassemblerAPI) (address : address_t)
    (hd : v.m_disassembler = some d) (hf : v.fontHeight ≠ 0) :
    (d.document.instructionItem address ≠ d.document.end →
      d.document.items[d.document.instructionItem address]?
        = some { address := address, type := ItemType.InstructionItem } ∧
      ∃ w, v.goTo address = some w ∧
        w.cursor = some (d.document.cursor.moveTo (d.document.instructionItem address) 0)) ∧
    (d.document.instructionItem address = d.document.end →
      d.document.symbolItem address ≠ d.document.end →
      d.document.items[d.document.symbolItem address]?
        = some { address := address, type := ItemType.SymbolItem } ∧
      ∃ w, v.goTo address = some w ∧
        w.cursor = some (d.document.cursor.moveTo (d.document.symbolItem address) 0)) ∧
    (d.document.instructionItem address = d.document.end →
      d.document.symbolItem address = d.document.end →
      v.goTo address = some v) := by
  refine ⟨fun h1 => ⟨(item_get d.document address _ h1).1, ?_⟩,
    fun h1 h2 => ⟨(item_get d.document address _ h2).1, ?_⟩, fun h1 h2 => ?_⟩
  · obtain ⟨w, hw, hdw, _⟩ := select_frame v d (d.document.instructionItem address) 0 hd hf
    refine ⟨w, ?_, by simp [cursor, hdw]⟩
    rw [goTo_eq_select v d address ItemType.InstructionItem hd (by rw [if_neg h1]; rfl) h1]
    exact hw
  · obtain ⟨w, hw, hdw, _⟩ := select_frame v d (d.document.symbolItem address) 0 hd hf
    refine ⟨w, ?_, by simp [cursor, hdw]⟩
    rw [goTo_eq_select v d address ItemType.SymbolItem hd (by rw [if_pos h1]; rfl) h2]
    exact hw
  · unfold goTo
    simp [hd, h1, h2]

set_option maxRecDepth 1000000 in
/-- C3, refuted as stated: a document of 1000 lines is attached, 20 lines are
visible from scroll offset 0, and the disassembler has not yet reported that it
finished, so no handler is bound to the cursor's `selectionChanged`.
`goTo(0x1000 + 500)` resolves to line 500 and moves the cursor there, but the
scroll offset stays 0 and nothing is added to the output: no current-address
notification is emitted. -/
theorem goTo_unbound_counterexample :
    ((Sample.view 1000 200 10 0 0 0).m_disassembler.map (fun d => d.document.size))
      = some 1000 ∧
    (Sample.view 1000 200 10 0 0 0).visibleLines = some 20 ∧
    (Sample.view 1000 200 10 0 0 0).verticalScrollBar
      = { minimum := 0, maximum := 1000, value := 0 } ∧
    (Sample.view 1000 200 10 0 0 0).isLineVisible 500 = some false ∧
    (Sample.view 1000 200 10 0 0 0).log = [Effect.update] ∧
    ((Sample.view 1000 200 10 0 0 0).goTo 4596).map
        (fun w => (w.cursor.map (fun c => c.currentLine), w.verticalScrollBar.value, w.log))
      = some (some 500, 0, [Effect.update]) := by
  decide

/-- C3, amended: a document is attached with scroll range `[0, N]`, and exactly one
`moveToSelection` handler is bound to the cursor's `selectionChanged` (the
disassembler has reported once that it finished).  When the lookups of
`goTo(address)` resolve the address to a line `L` that is not visible, the
call returns, the scroll offset afterwards is `L`, and what is added to the
output is some redraw requests followed by exactly one `addressChanged`,
carrying the address of the item at line `L` (which is `address`). -/
theorem goTo_scrolls_and_notifies (v : DisassemblerTextView) (d : DisassemblerAPI)
    (address : address_t) (L : Nat)
    (hd : v.m_disassembler = some d)
    (hk : d.document.cursor.selectionChanged = 1)
    (hmin : v.verticalScrollBar.minimum = 0)
    (hmax : v.verticalScrollBar.maximum = (d.document.size : Int))
    (hit : (if d.document.instructionItem address = d.document.end
            then d.document.symbolItem address else d.document.instructionItem address) = L)
    (hne : L ≠ d.document.end)
    (hvis : v.isLineVisible L = some false) :
    ∃ w item k, v.goTo address = some w ∧ w.verticalScrollBar.value = L ∧
      d.document.itemAt L = some item ∧ item.address = address ∧
      w.log = v.log ++ List.replicate k Effect.update ++ [Effect.addressChanged item.address] := by
  have key : ∃ t, L = d.document.item address t := by
    by_cases h1 : d.document.instructionItem address = d.document.end
    · rw [if_pos h1] at hit; exact ⟨ItemType.SymbolItem, hit.symm⟩
    · rw [if_neg h1] at hit; exact ⟨ItemType.InstructionItem, hit.symm⟩
  obtain ⟨t, hL⟩ := key
  subst hL
  obtain ⟨hget, -⟩ := item_get d.document address t hne
  have hle : d.document.item address t ≤ d.document.items.length := List.findIdx_le_length _
  have hlt : d.document.item address t < d.document.items.length := by
    unfold ListingDocument.end at hne; omega
  have hitem : d.document.itemAt (d.document.item address t : Int)
      = some { address := address, type := t } := by
    unfold ListingDocument.itemAt
    simp [hget]
  have hb : v.verticalScrollBar.bound (d.document.item address t : Int)
      = (d.document.item address t : Int) :=
    bound_of_mem _ _ (by omega) (by rw [hmax]; unfold ListingDocument.size; omega)
  have hgo : v.goTo address = some
      ((({ v with m_disassembler := some { d with document := { d.document with
            cursor := d.document.cursor.moveTo (d.document.item address t : Int) 0 } } }
          : DisassemblerTextView).withScrollBar
            (fun s => s.setValue (d.document.item address t : Int))).emit
        (Effect.addressChanged address)) := by
    rw [goTo_eq_select v d address t hd hit hne]
    unfold select
    simp only [hd, Option.bind_eq_bind, Option.some_bind, ListingCursor.moveTo, hk,
      raiseSelectionChanged]
    rw [moveToSelection_of_isLineVisible _ _ false rfl
      (by rw [← hvis]; exact isLineVisible_congr _ _ _ rfl rfl rfl)]
    simp only [ListingCursor.currentLine, ListingDocument.itemAt] at hitem ⊢
    simp only [hitem]
    rfl
  refine ⟨_, { address := address, type := t },
    (if (v.verticalScrollBar.setValue (d.document.item address t : Int)).value
        = v.verticalScrollBar.value then 0 else v.valueChanged), hgo, ?_, hitem, rfl, ?_⟩
  · simp [QScrollBar.setValue, hb]
  · simp [withScrollBar_log]

/-- C2 at concrete inputs, one per case: in the four-line sample document the
address 0x1000 has an instruction on line 1 (and a label on line 0), the
address 0x2000 has only a label, on line 3, and the address 0x3000 has nothing. -/
theorem goTo_selects_witness :
    Sample.mixedView.m_disassembler = some (Sample.subscribed Sample.mixedDisassembler) ∧
    (∃ w, Sample.mixedView.goTo 4096 = some w ∧
      w.cursor = some ((Sample.subscribed Sample.mixedDisassembler).document.cursor.moveTo 1 0)) ∧
    (∃ w, Sample.mixedView.goTo 8192 = some w ∧
      w.cursor = some ((Sample.subscribed Sample.mixedDisassembler).document.cursor.moveTo 3 0)) ∧
    Sample.mixedView.goTo 12288 = some Sample.mixedView :=
  ⟨by decide,
    ((goTo_selects Sample.mixedView (Sample.subscribed Sample.mixedDisassembler) 4096
      (by decide) (by decide)).1 (by decide)).2,
    ((goTo_selects Sample.mixedView (Sample.subscribed Sample.mixedDisassembler) 8192
      (by decide) (by decide)).2.1 (by decide) (by decide)).2,
    (goTo_selects Sample.mixedView (Sample.subscribed Sample.mixedDisassembler) 12288
      (by decide) (by decide)).2.2 (by decide) (by decide)⟩

set_option maxRecDepth 1000000 in
/-- C3 (amended) on the example of the specification: 1000 lines, 20 of them
visible from scroll offset 0, one handler bound; `goTo(0x1000 + 500)` resolves
to line 500, the scroll offset becomes 500 and one `addressChanged` carrying
`0x1000 + 500` is emitted. -/
theorem goTo_scrolls_and_notifies_witness :
    (Sample.view 1000 200 10 0 0 1).visibleLines = some 20 ∧
    (Sample.view 1000 200 10 0 0 1).verticalScrollBar.value = 0 ∧
    ∃ w item k, (Sample.view 1000 200 10 0 0 1).goTo 4596 = some w ∧
      w.verticalScrollBar.value = 500 ∧
      (Sample.subscribed (Sample.disassemblerAt 1000 0 1)).document.itemAt 500 = some item ∧
      item.address = 4596 ∧
      w.log = (Sample.view 1000 200 10 0 0 1).log ++ List.replicate k Effect.update
        ++ [Effect.addressChanged item.address] :=
  ⟨by decide, by decide,
    goTo_scrolls_and_notifies (Sample.view 1000 200 10 0 0 1)
      (Sample.subscribed (Sample.disassemblerAt 1000 0 1)) 4596 500
      (by decide) (by decide) (by decide) (by decide) (by decide) (by decide) (by decide)⟩

/-! ## Document changes -/
theorem setMaximum_maximum (b : QScrollBar) (hi : Int) : (b.setMaximum hi).maximum = hi := by
  unfold QScrollBar.setMaximum QScrollBar.setRange QScrollBar.setValue
  simp only []
  split <;> simp

theorem setMaximum_minimum (b : QScrollBar) (hi : Int) :
    (b.setMaximum hi).minimum = min b.minimum hi := by
  unfold QScrollBar.setMaximum QScrollBar.setRange QScrollBar.setValue
  simp only []
  split <;> simp

theorem setMaximum_value_of_mem (b : QScrollBar) (hi : Int) (h1 : b.minimum ≤ b.value)
    (h2 : b.value ≤ hi) : (b.setMaximum hi).value = b.value := by
  unfold QScrollBar.setMaximum QScrollBar.setRange QScrollBar.setValue QScrollBar.bound
  simp only []
  split
  · simp only []; omega
  · rfl

/-- C4, refuted as stated: the view shows a document from scroll offset 10, with 2
visible lines, and the document now has 5 lines.  The change event for line 0,
which lies outside the window both before and after the call, makes
`setMaximum(5)` pull the scroll offset to 5; the scroll bar announces the new
value and the lambda connected in `setDisassembler` requests one redraw. -/
theorem onDocumentChanged_redraw_counterexample :
    (Sample.shrunk.m_disassembler.map (fun d => d.document.size)) = some 5 ∧
    Sample.shrunk.verticalScrollBar = { minimum := 0, maximum := 10, value := 10 } ∧
    Sample.shrunk.visibleLines = some 2 ∧
    Sample.shrunk.isLineVisible 0 = some false ∧
    ((Sample.shrunk.onDocumentChanged 0).map (fun w => (w.verticalScrollBar, w.log)))
      = some ({ minimum := 0, maximum := 5, value := 5 }, Sample.shrunk.log ++ [Effect.update]) ∧
    ((Sample.shrunk.onDocumentChanged 0).bind (fun w => w.isLineVisible 0)) = some false := by
  decide

/-- C4, amended: with a document attached and `n` visible lines, `onDocumentChanged`
returns and the scroll-range maximum afterwards is the document size; when
the scroll offset `s` lies inside the new range (so that it is not moved) and
the changed line `i` satisfies `i < s` or `i > s + n`, nothing is added to the
output (no redraw is requested) and the scroll offset is still `s`. -/
theorem onDocumentChanged_offscreen (v : DisassemblerTextView) (d : DisassemblerAPI)
    (n index : Int) (hd : v.m_disassembler = some d) (hn : v.visibleLines = some n) :
    ∃ w, v.onDocumentChanged index = some w ∧
      w.verticalScrollBar.maximum = (d.document.size : Int) ∧
      (v.verticalScrollBar.minimum ≤ v.verticalScrollBar.value →
        v.verticalScrollBar.value ≤ (d.document.size : Int) →
        index < v.verticalScrollBar.value ∨ index > v.verticalScrollBar.value + n →
        w.log = v.log ∧ w.verticalScrollBar.value = v.verticalScrollBar.value) := by
  have hn1 : (v.withScrollBar (fun b => b.setMaximum (d.document.size : Int))).visibleLines
      = some n := by
    rw [← hn]; apply visibleLines_congr <;> simp
  unfold onDocumentChanged
  simp only [hd, Option.bind_eq_bind, Option.some_bind, hn1]
  by_cases h1 : index < (v.withScrollBar
      (fun b => b.setMaximum (d.document.size : Int))).verticalScrollBar.value
  · rw [if_pos h1]
    refine ⟨_, rfl, by simp [setMaximum_maximum], fun h2 h3 _ => ?_⟩
    simp [withScrollBar_log, setMaximum_value_of_mem _ _ h2 h3]
  · rw [if_neg h1]
    by_cases h4 : index > (v.withScrollBar
        (fun b => b.setMaximum (d.document.size : Int))).verticalScrollBar.value + n
    · simp only [h4, if_true]
      refine ⟨_, rfl, by simp [setMaximum_maximum], fun h2 h3 _ => ?_⟩
      simp [withScrollBar_log, setMaximum_value_of_mem _ _ h2 h3]
    · simp only [h4, if_false]
      refine ⟨_, rfl, by simp [update, setMaximum_maximum], fun h2 h3 h5 => ?_⟩
      exfalso
      simp only [withScrollBar_verticalScrollBar, setMaximum_value_of_mem _ _ h2 h3] at h1 h4
      omega

/-- The window test of `onDocumentChanged` differs from `isLineVisible` at the
line just below the window: for the index `s + n`, which `isLineVisible`
reports as not visible, a redraw is requested. -/
theorem onDocumentChanged_boundary :
    (Sample.view 10 20 10 0 0 0).visibleLines = some 2 ∧
    (Sample.view 10 20 10 0 0 0).verticalScrollBar.value = 0 ∧
    (Sample.view 10 20 10 0 0 0).isLineVisible 2 = some false ∧
    ((Sample.view 10 20 10 0 0 0).onDocumentChanged 2).map (fun w => w.log)
      = some ((Sample.view 10 20 10 0 0 0).log ++ [Effect.update]) := by
  decide

/-- C4 (amended) at a concrete state: 10 lines, 2 visible from offset 0, change
event for line 7: the maximum is 10, nothing is redrawn. -/
theorem onDocumentChanged_offscreen_witness :
    (Sample.view 10 20 10 0 0 0).m_disassembler
      = some (Sample.subscribed (Sample.disassemblerAt 10 0 0)) ∧
    (Sample.view 10 20 10 0 0 0).visibleLines = some 2 ∧
    ∃ w, (Sample.view 10 20 10 0 0 0).onDocumentChanged 7 = some w ∧
      w.verticalScrollBar.maximum = 10 ∧
      w.log = (Sample.view 10 20 10 0 0 0).log ∧ w.verticalScrollBar.value = 0 :=
  ⟨by decide, by decide,
    (onDocumentChanged_offscreen (Sample.view 10 20 10 0 0 0)
      (Sample.subscribed (Sample.disassemblerAt 10 0 0)) 2 7 (by decide) (by decide)).elim
      (fun w h => ⟨w, h.1, h.2.1, h.2.2 (by decide) (by decide) (by decide)⟩)⟩

/-! ## The scroll offset in the reachable states -/
theorem lagging_of_inStep {v : DisassemblerTextView} (h : InStep v) : Lagging v := by
  obtain ⟨d, hd, hc, hmin, _, h0, h1⟩ := h
  exact ⟨d, hd, hc, hmin, h0, h1⟩

/-- A step that keeps the attached document's lines and subscription and the
scroll bar keeps a view in step. -/
theorem inStep_of_same {v w : DisassemblerTextView} (h : InStep v)
    (hd : ∀ d, v.m_disassembler = some d → ∃ e, w.m_disassembler = some e ∧
      e.document.items = d.document.items ∧ e.document.changed = d.document.changed)
    (hb : w.verticalScrollBar = v.verticalScrollBar) : InStep w := by
  obtain ⟨d, hvd, hc, hmin, hmax, h0, h1⟩ := h
  obtain ⟨e, hwe, hi, hch⟩ := hd d hvd
  refine ⟨e, hwe, by rw [hch]; exact hc, by rw [hb]; exact hmin, ?_, by rw [hb]; exact h0,
    by rw [hb]; exact h1⟩
  rw [hb, hmax]; unfold ListingDocument.size; rw [hi]

theorem inStep_emit {v : DisassemblerTextView} (h : InStep v) (e : Effect) :
    InStep (v.emit e) :=
  inStep_of_same h (fun d hd => ⟨d, hd, rfl, rfl⟩) rfl

theorem inStep_setValue {v : DisassemblerTextView} (h : InStep v) (x : Int) :
    InStep (v.withScrollBar (fun b => b.setValue x)) := by
  obtain ⟨d, hvd, hc, hmin, hmax, h0, h1⟩ := h
  refine ⟨d, by simpa using hvd, hc, by simpa [QScrollBar.setValue] using hmin,
    by simpa [QScrollBar.setValue] using hmax, ?_, ?_⟩ <;>
  · simp only [withScrollBar_verticalScrollBar, QScrollBar.setValue, QScrollBar.bound]
    omega

theorem inStep_moveToSelection {v w : DisassemblerTextView} (h : InStep v)
    (hw : v.moveToSelection = some w) : InStep w := by
  obtain ⟨d, hvd, -⟩ := id h
  unfold DisassemblerTextView.moveToSelection at hw
  simp only [hvd, Option.bind_eq_bind, Option.some_bind] at hw
  cases hb : v.isLineVisible d.document.cursor.currentLine with
  | none => simp [hb] at hw
  | some b =>
    simp only [hb, Option.some_bind] at hw
    cases hi : d.document.itemAt d.document.cursor.currentLine <;>
      cases b <;> simp [hi] at hw <;> subst hw
    · exact inStep_setValue h _
    · exact inStep_emit h _
    · exact inStep_emit (inStep_setValue h _) _
    · exact inStep_emit (inStep_emit h _) _

theorem inStep_raiseSelectionChanged (k : Nat) {v w : DisassemblerTextView} (h : InStep v)
    (hw : DisassemblerTextView.raiseSelectionChanged k v = some w) : InStep w := by
  induction k generalizing v with
  | zero =>
    simp only [DisassemblerTextView.raiseSelectionChanged, Option.some.injEq] at hw
    subst hw; exact h
  | succ k ih =>
    simp only [DisassemblerTextView.raiseSelectionChanged, Option.bind_eq_bind] at hw
    cases h1 : v.moveToSelection with
    | none => simp [h1] at hw
    | some v1 =>
      simp only [h1, Option.some_bind] at hw
      exact ih (inStep_moveToSelection h h1) hw

theorem inStep_select {v w : DisassemblerTextView} (h : InStep v) (line column : Int)
    (hw : v.select line column = some w) : InStep w := by
  obtain ⟨d, hvd, -⟩ := id h
  unfold DisassemblerTextView.select at hw
  simp only [hvd, Option.bind_eq_bind, Option.some_bind] at hw
  refine inStep_raiseSelectionChanged _ ?_ hw
  refine inStep_of_same h (fun e he => ?_) rfl
  rw [hvd] at he
  cases he
  exact ⟨_, rfl, rfl, rfl⟩

theorem inStep_goToItem {v w : DisassemblerTextView} (h : InStep v) (item : ListingItem)
    (hw : v.goToItem item = some w) : InStep w := by
  obtain ⟨d, hvd, -⟩ := id h
  unfold DisassemblerTextView.goToItem at hw
  simp only [hvd, Option.bind_eq_bind, Option.some_bind] at hw
  split at hw
  · cases hw; exact h
  · exact inStep_select h _ _ hw

theorem inStep_goTo {v w : DisassemblerTextView} (h : InStep v) (address : address_t)
    (hw : v.goTo address = some w) : InStep w := by
  obtain ⟨d, hvd, -⟩ := id h
  unfold DisassemblerTextView.goTo at hw
  simp only [hvd, Option.bind_eq_bind, Option.some_bind] at hw
  generalize (if d.document.instructionItem address = d.document.end
    then d.document.symbolItem address else d.document.instructionItem address) = it at hw
  by_cases hc : it = d.document.end
  · rw [if_pos hc] at hw; cases hw; exact h
  · rw [if_neg hc] at hw
    cases hi : d.document.items[it]? with
    | none => simp [hi] at hw
    | some item =>
      simp only [hi, Option.some_bind] at hw
      exact inStep_goToItem h item hw

theorem inStep_onDisassemblerFinished {v w : DisassemblerTextView} (h : InStep v)
    (hw : v.onDisassemblerFinished = some w) : InStep w := by
  obtain ⟨d, hvd, -⟩ := id h
  unfold DisassemblerTextView.onDisassemblerFinished at hw
  simp only [hvd, Option.bind_eq_bind, Option.some_bind] at hw
  refine inStep_moveToSelection ?_ hw
  refine inStep_of_same h (fun e he => ?_) rfl
  rw [hvd] at he
  cases he
  exact ⟨_, rfl, rfl, rfl⟩

theorem inStep_blinkCursor {v w : DisassemblerTextView} (h : InStep v)
    (hw : v.blinkCursor = some w) : InStep w := by
  unfold DisassemblerTextView.blinkCursor at hw
  cases hd : v.m_disassembler with
  | none => simp [hd] at hw
  | some d =>
    cases hr : v.m_renderer with
    | none => simp [hd, hr] at hw
    | some r =>
      have h1 : InStep { v with m_renderer := some r.toggleCursor } :=
        inStep_of_same h (fun e he => ⟨e, he, rfl, rfl⟩) rfl
      simp only [hd, hr, Option.bind_eq_bind, Option.some_bind] at hw h1
      generalize DisassemblerTextView.isLineVisible _ _ = o at hw
      cases o with
      | none => simp at hw
      | some b =>
        simp only [Option.some_bind] at hw
        cases b <;> simp at hw <;> subst hw
        · exact h1
        · exact inStep_emit h1 _

theorem inStep_paintEvent {v w : DisassemblerTextView} (h : InStep v)
    (hw : v.paintEvent = some w) : InStep w := by
  unfold DisassemblerTextView.paintEvent at hw
  split at hw
  · cases hw; exact h
  · cases hn : v.visibleLines with
    | none => simp [hn] at hw
    | some n =>
      simp [hn] at hw; subst hw; exact inStep_emit h _

theorem inStep_mousePressEvent {v w : DisassemblerTextView} (h : InStep v)
    (button : MouseButton) (cp : Int × Int) (hw : v.mousePressEvent button cp = some w) :
    InStep w := by
  unfold DisassemblerTextView.mousePressEvent at hw
  split at hw
  · cases hd : v.m_disassembler with
    | none => simp [hd] at hw
    | some d =>
      cases hr : v.m_renderer with
      | none => simp [hd, hr] at hw
      | some r =>
        simp only [hd, hr, Option.bind_eq_bind, Option.some_bind] at hw
        exact inStep_select h _ _ hw
  · cases hw; exact h

theorem inStep_showReferenceDialog {v w : DisassemblerTextView} (h : InStep v)
    (symbol : Option Symbol) (hw : v.showReferenceDialog symbol = some w) : InStep w := by
  obtain ⟨d, hvd, -⟩ := id h
  unfold DisassemblerTextView.showReferenceDialog at hw
  cases symbol with
  | none => simp at hw; subst hw; exact h
  | some s =>
    simp only [hvd, Option.bind_eq_bind, Option.some_bind] at hw
    split at hw <;> (simp at hw; subst hw; exact inStep_emit h _)

theorem inStep_rename {v w : DisassemblerTextView} (h : InStep v) (address : address_t)
    (answers : List QString) (hw : v.rename address answers = some w) : InStep w := by
  obtain ⟨d, hvd, -⟩ := id h
  induction answers generalizing v with
  | nil =>
    unfold DisassemblerTextView.rename at hw
    split at hw
    · cases hw; exact h
    · simp only [hvd] at hw
      split at hw
      · cases hw; exact h
      · cases hw; exact inStep_emit h _
  | cons s rest ih =>
    unfold DisassemblerTextView.rename at hw
    split at hw
    · cases hw; exact h
    · simp only [hvd] at hw
      split at hw
      · cases hw; exact h
      · split at hw
        · cases hw; exact inStep_emit h _
        · split at hw
          · exact ih (inStep_emit (inStep_emit h _) _) hw (by simpa using hvd)
          · cases hw; exact inStep_emit h _

theorem inStep_keyPressEvent {v w : DisassemblerTextView} (h : InStep v) (key : Key)
    (answers : List QString) (hw : v.keyPressEvent key answers = some w) : InStep w := by
  obtain ⟨d, hvd, -⟩ := id h
  unfold DisassemblerTextView.keyPressEvent at hw
  split at hw
  · simp only [hvd, Option.bind_eq_bind, Option.some_bind] at hw
    split at hw
    · cases hw; exact h
    · exact inStep_showReferenceDialog h _ hw
  · split at hw
    · exact inStep_rename h _ _ hw
    · cases hw; exact h

theorem setRange_spec (b : QScrollBar) (hi : Int) (h0 : 0 ≤ hi)
    (hb : ¬ (b.minimum ≠ 0 ∨ b.maximum ≠ hi) → 0 ≤ b.value ∧ b.value ≤ hi) :
    (b.setRange 0 hi).minimum = 0 ∧ (b.setRange 0 hi).maximum = hi ∧
      0 ≤ (b.setRange 0 hi).value ∧ (b.setRange 0 hi).value ≤ hi := by
  unfold QScrollBar.setRange QScrollBar.setValue QScrollBar.bound
  simp only [max_eq_right h0]
  split
  · refine ⟨rfl, rfl, ?_, ?_⟩ <;> simp only [] <;> omega
  · rename_i hc
    exact ⟨rfl, rfl, (hb hc).1, (hb hc).2⟩

theorem lagging_onDocumentChanged {v w : DisassemblerTextView} (h : Lagging v) (index : Int)
    (hw : v.onDocumentChanged index = some w) : InStep w := by
  obtain ⟨d, hvd, hc, hmin, h0, h1⟩ := h
  have hs : (0 : Int) ≤ (d.document.size : Int) := Int.ofNat_nonneg _
  have hbar := setRange_spec v.verticalScrollBar (d.document.size : Int) hs (fun hc => by
    have : v.verticalScrollBar.maximum = (d.document.size : Int) := by
      by_contra hne; exact hc (Or.inr hne)
    exact ⟨h0, by rw [← this]; exact h1⟩)
  have hset : v.verticalScrollBar.setMaximum (d.document.size : Int)
      = v.verticalScrollBar.setRange 0 (d.document.size : Int) := by
    unfold QScrollBar.setMaximum; rw [hmin, min_eq_left hs]
  have h2 : InStep (v.withScrollBar (fun b => b.setMaximum (d.document.size : Int))) := by
    refine ⟨d, by simpa using hvd, hc, ?_, ?_, ?_, ?_⟩ <;>
      simp only [withScrollBar_verticalScrollBar, hset]
    · exact hbar.1
    · exact hbar.2.1
    · exact hbar.2.2.1
    · rw [hbar.2.1]; exact hbar.2.2.2
  unfold DisassemblerTextView.onDocumentChanged at hw
  simp only [hvd, Option.bind_eq_bind, Option.some_bind] at hw
  split at hw
  · cases hw; exact h2
  · generalize DisassemblerTextView.visibleLines _ = o at hw
    cases o with
    | none => simp at hw
    | some n =>
      simp only [Option.some_bind] at hw
      split at hw
      · cases hw; exact h2
      · cases hw; exact inStep_emit h2 _

theorem lagging_iterate (index : Int) (k : Nat) {v u : DisassemblerTextView} (h : Lagging v)
    (hu : Nat.iterate (fun s => s.bind (fun w => w.onDocumentChanged index)) k (some v) = some u) :
    Lagging u := by
  induction k generalizing u with
  | zero => simp only [Function.iterate_zero, id_eq, Option.some.injEq] at hu; subst hu; exact h
  | succ k ih =>
    rw [Function.iterate_succ_apply'] at hu
    cases hp : Nat.iterate (fun s => s.bind (fun w => w.onDocumentChanged index)) k (some v) with
    | none => simp [hp] at hu
    | some p =>
      simp only [hp, Option.some_bind] at hu
      exact lagging_of_inStep (lagging_onDocumentChanged (ih hp) index hu)

theorem inStep_documentChanged {v w : DisassemblerTextView} (h : InStep v)
    (items : List ListingItem) (index : Int) (hw : v.documentChanged items index = some w) :
    InStep w := by
  obtain ⟨d, hvd, hc, hmin, hmax, h0, h1⟩ := h
  unfold DisassemblerTextView.documentChanged at hw
  simp only [hvd, Option.bind_eq_bind, Option.some_bind] at hw
  obtain ⟨k, hk⟩ : ∃ k, d.document.changed = k + 1 := ⟨d.document.changed - 1, by omega⟩
  rw [hk, Function.iterate_succ_apply'] at hw
  generalize hp : Nat.iterate _ k _ = p at hw
  cases p with
  | none => simp at hw
  | some p =>
    simp only [Option.some_bind] at hw
    refine lagging_onDocumentChanged (lagging_iterate index k ?_ hp) index hw
    exact ⟨_, rfl, Nat.le_add_left 1 k, hmin, h0, h1⟩

theorem inStep_setDisassembler (height fontHeight : Int) (bar : QScrollBar)
    (disassembler : DisassemblerAPI) :
    InStep ((DisassemblerTextView.new height fontHeight bar).setDisassembler disassembler) := by
  have hs : (0 : Int) ≤ (disassembler.document.size : Int) := Int.ofNat_nonneg _
  have hbar := setRange_spec (bar.setValue 0) (disassembler.document.size : Int) hs (fun hc => by
    have h1 : bar.minimum = 0 := by
      by_contra hne; exact hc (Or.inl hne)
    have h2 : bar.maximum = (disassembler.document.size : Int) := by
      by_contra hne; exact hc (Or.inr hne)
    simp only [QScrollBar.setValue, QScrollBar.bound, h1, h2]
    omega)
  refine ⟨_, rfl, Nat.le_add_left 1 _, ?_, ?_, ?_, ?_⟩ <;>
    simp only [DisassemblerTextView.setDisassembler, DisassemblerTextView.update, emit_verticalScrollBar,
      withScrollBar_verticalScrollBar, DisassemblerTextView.new]
  · exact hbar.1
  · exact hbar.2.1
  · exact hbar.2.2.1
  · exact le_of_le_of_eq hbar.2.2.2 hbar.2.1.symm

theorem reachable_inStep {v : DisassemblerTextView} (h : Reachable v) : InStep v := by
  induction h with
  | setDisassembler height fontHeight bar d => exact inStep_setDisassembler _ _ _ _
  | scrollTo value _ ih => exact inStep_setValue ih value
  | resize h _ ih => exact inStep_of_same ih (fun d hd => ⟨d, hd, rfl, rfl⟩) rfl
  | documentChanged items index _ hw ih => exact inStep_documentChanged ih items index hw
  | onDocumentChanged index _ hw ih => exact lagging_onDocumentChanged (lagging_of_inStep ih) index hw
  | goTo address _ hw ih => exact inStep_goTo ih address hw
  | goToItem item _ hw ih => exact inStep_goToItem ih item hw
  | select line column _ hw ih => exact inStep_select ih line column hw
  | moveToSelection _ hw ih => exact inStep_moveToSelection ih hw
  | onDisassemblerFinished _ hw ih => exact inStep_onDisassemblerFinished ih hw
  | blinkCursor _ hw ih => exact inStep_blinkCursor ih hw
  | paintEvent _ hw ih => exact inStep_paintEvent ih hw
  | mousePressEvent button cp _ hw ih => exact inStep_mousePressEvent ih button cp hw
  | keyPressEvent key answers _ hw ih => exact inStep_keyPressEvent ih key answers hw

/-- C6, refuted as stated: after `setDisassembler` with a document of 5 lines the
scroll range is `[0, 5]`, and moving the scroll bar to 5, a value of that
range, gives a reachable state whose scroll offset 5 exceeds
`max(0, 5 - 1) = 4`. -/
theorem scrollOffset_bound_counterexample :
    Reachable ((Sample.attached 5 20 10).scrollTo 5) ∧
    (Sample.attached 5 20 10).verticalScrollBar = { minimum := 0, maximum := 5, value := 0 } ∧
    (((Sample.attached 5 20 10).scrollTo 5).m_disassembler.map (fun d => d.document.size))
      = some 5 ∧
    ((Sample.attached 5 20 10).scrollTo 5).verticalScrollBar.value = 5 ∧
    ¬ ((5 : Int) ≤ max 0 (5 - 1)) :=
  ⟨Reachable.scrollTo 5 (Reachable.setDisassembler 20 10 _ _), by decide, by decide, by decide,
    by decide⟩

/-- C6, amended: in every state reachable from `setDisassembler` through the view's
operations a document is attached and the scroll offset lies in `[0, N]`, where
`N` is the current size of the document. -/
theorem scrollOffset_bound (v : DisassemblerTextView) (h : Reachable v) :
    ∃ d, v.m_disassembler = some d ∧ 0 ≤ v.verticalScrollBar.value ∧
      v.verticalScrollBar.value ≤ (d.document.size : Int) := by
  obtain ⟨d, hd, -, -, hmax, h0, h1⟩ := reachable_inStep h
  exact ⟨d, hd, h0, by rw [← hmax]; exact h1⟩

/-- C6 (amended) at a concrete reachable state: a document of 5 lines, the
scroll bar moved to 5. -/
theorem scrollOffset_bound_witness :
    Reachable ((Sample.attached 5 20 10).scrollTo 5) ∧
    ∃ d, ((Sample.attached 5 20 10).scrollTo 5).m_disassembler = some d ∧
      0 ≤ ((Sample.attached 5 20 10).scrollTo 5).verticalScrollBar.value ∧
      ((Sample.attached 5 20 10).scrollTo 5).verticalScrollBar.value ≤ (d.document.size : Int) :=
  ⟨Reachable.scrollTo 5 (Reachable.setDisassembler 20 10 _ _),
    scrollOffset_bound _ (Reachable.scrollTo 5 (Reachable.setDisassembler 20 10 _ _))⟩

/-! ## Renaming a symbol -/
theorem emitAll_nil (v : DisassemblerTextView) : v.emitAll [] = v := by
  simp [emitAll]

theorem emit_eq_emitAll (v : DisassemblerTextView) (e : Effect) : v.emit e = v.emitAll [e] := rfl

theorem emitAll_emitAll (v : DisassemblerTextView) (a b : List Effect) :
    (v.emitAll a).emitAll b = v.emitAll (a ++ b) := by
  simp [emitAll]

@[simp] theorem emitAll_m_disassembler (v : DisassemblerTextView) (es : List Effect) :
    (v.emitAll es).m_disassembler = v.m_disassembler := rfl

@[simp] theorem emitAll_valid (v : DisassemblerTextView) (es : List Effect) :
    (v.emitAll es).m_issymboladdressvalid = v.m_issymboladdressvalid := rfl

/-- One unfolding of `rename` when it is offered for an address with a symbol. -/
theorem rename_offered (v : DisassemblerTextView) (d : DisassemblerAPI) (symbol : Symbol)
    (address : address_t) (answers : List QString)
    (hvalid : v.m_issymboladdressvalid = true) (hd : v.m_disassembler = some d)
    (hsym : d.document.symbol address = some symbol) :
    v.rename address answers =
      match answers with
      | [] => some (v.emit (renamePrompt symbol))
      | s :: rest =>
        if s.isEmpty then some (v.emit (renamePrompt symbol))
        else
          match d.document.symbols.symbol s with
          | some _ => ((v.emit (renamePrompt symbol)).emit duplicateWarning).rename address rest
          | none => some (v.emit (renamePrompt symbol)) := by
  rw [rename]
  simp only [hvalid, hd, hsym, Bool.not_true, Bool.false_eq_true, if_false]
  rfl

/-- One unfolding of `rename` when it is not offered or the address has no
symbol. -/
theorem rename_not_offered (v : DisassemblerTextView) (d : DisassemblerAPI)
    (address : address_t) (answers : List QString) (hd : v.m_disassembler = some d)
    (h : v.m_issymboladdressvalid = false ∨ d.document.symbol address = none) :
    v.rename address answers = some v := by
  rw [rename]
  rcases h with h | h
  · simp [h]
  · by_cases hv : v.m_issymboladdressvalid = true <;> simp [hv, hd, h]

/-- With a disassembler attached `rename` returns, whatever is entered, and
changes nothing but the output. -/
theorem rename_frame (v : DisassemblerTextView) (d : DisassemblerAPI) (address : address_t)
    (answers : List QString) (hd : v.m_disassembler = some d) :
    ∃ fx, v.rename address answers = some (v.emitAll fx) := by
  induction answers generalizing v with
  | nil =>
    by_cases hv : v.m_issymboladdressvalid = true
    · cases hs : d.document.symbol address with
      | none => exact ⟨[], by rw [rename_not_offered v d address _ hd (Or.inr hs), emitAll_nil]⟩
      | some symbol => exact ⟨[renamePrompt symbol], by rw [rename_offered v d symbol address _ hv hd hs]; rfl⟩
    · exact ⟨[], by
        rw [rename_not_offered v d address _ hd (Or.inl (by simpa using hv)), emitAll_nil]⟩
  | cons s rest ih =>
    by_cases hv : v.m_issymboladdressvalid = true
    · cases hs : d.document.symbol address with
      | none => exact ⟨[], by rw [rename_not_offered v d address _ hd (Or.inr hs), emitAll_nil]⟩
      | some symbol =>
        rw [rename_offered v d symbol address _ hv hd hs]
        simp only []
        by_cases he : s.isEmpty = true
        · rw [if_pos he]; exact ⟨[renamePrompt symbol], rfl⟩
        · rw [if_neg he]
          cases hq : d.document.symbols.symbol s with
          | none => exact ⟨[renamePrompt symbol], rfl⟩
          | some o =>
            obtain ⟨fx, hw⟩ := ih ((v.emit (renamePrompt symbol)).emit duplicateWarning)
              (by simpa using hd)
            exact ⟨renamePrompt symbol :: duplicateWarning :: fx, by
              simp only [hw]; simp [emit, emitAll]⟩
    · exact ⟨[], by
        rw [rename_not_offered v d address _ hd (Or.inl (by simpa using hv)), emitAll_nil]⟩

/-- When rename is offered for an address that has a symbol, `rename` opens the
input dialog for that symbol first. -/
theorem rename_prompts (v : DisassemblerTextView) (d : DisassemblerAPI) (symbol : Symbol)
    (address : address_t) (answers : List QString)
    (hvalid : v.m_issymboladdressvalid = true) (hd : v.m_disassembler = some d)
    (hsym : d.document.symbol address = some symbol) :
    ∃ fx, v.rename address answers = some (v.emitAll (renamePrompt symbol :: fx)) := by
  rw [rename_offered v d symbol address _ hvalid hd hsym]
  cases answers with
  | nil => exact ⟨[], rfl⟩
  | cons s rest =>
    simp only []
    by_cases he : s.isEmpty = true
    · rw [if_pos he]; exact ⟨[], rfl⟩
    · rw [if_neg he]
      cases hq : d.document.symbols.symbol s with
      | none => exact ⟨[], rfl⟩
      | some o =>
        obtain ⟨fx, hw⟩ := rename_frame ((v.emit (renamePrompt symbol)).emit duplicateWarning) d
          address rest (by simpa using hd)
        exact ⟨duplicateWarning :: fx, by simp only [hw]; simp [emit, emitAll]⟩

/-- C7: rename is offered (the symbol-address-valid flag is set) for an address
that has a symbol, and the name entered is not empty and already names a
symbol of the table.  Then `rename` returns; what it adds to the output starts
with the input dialog, the warning `Duplicate symbol name` and the input dialog
for the same symbol again, the call being the same as `rename` for the same
address with the remaining entries; and nothing else of the state changes, so
neither the symbol table nor the document is touched.  For an empty entry the
call ends after the input dialog, without a warning. -/
theorem rename_duplicate (v : DisassemblerTextView) (d : DisassemblerAPI)
    (symbol other : Symbol) (address : address_t) (name : QString) (rest : List QString)
    (hvalid : v.m_issymboladdressvalid = true) (hd : v.m_disassembler = some d)
    (hsym : d.document.symbol address = some symbol)
    (hne : name ≠ []) (hdup : d.document.symbols.symbol name = some other) :
    (v.rename address (name :: rest)
      = ((v.emit (renamePrompt symbol)).emit duplicateWarning).rename address rest) ∧
    (∃ fx, v.rename address (name :: rest) = some
      (v.emitAll (renamePrompt symbol :: duplicateWarning :: renamePrompt symbol :: fx))) ∧
    (∀ w, v.rename address (name :: rest) = some w → w.m_disassembler = some d) ∧
    v.rename address ([] :: rest) = some (v.emit (renamePrompt symbol)) := by
  have hne' : ¬ (name.isEmpty = true) := by
    cases name with
    | nil => exact absurd rfl hne
    | cons c cs => simp
  have h1 : v.rename address (name :: rest)
      = ((v.emit (renamePrompt symbol)).emit duplicateWarning).rename address rest := by
    rw [rename_offered v d symbol address _ hvalid hd hsym]
    simp only [hdup, if_neg hne']
  obtain ⟨fx, h2⟩ := rename_prompts ((v.emit (renamePrompt symbol)).emit duplicateWarning) d symbol
    address rest (by simpa using hvalid) (by simpa using hd) hsym
  have h3 : v.rename address (name :: rest) = some
      (v.emitAll (renamePrompt symbol :: duplicateWarning :: renamePrompt symbol :: fx)) := by
    rw [h1, h2]; simp [emit, emitAll]
  refine ⟨h1, ⟨fx, h3⟩, fun w hw => ?_, ?_⟩
  · rw [h3] at hw; cases hw; simpa using hd
  · rw [rename_offered v d symbol address _ hvalid hd hsym]
    rfl
/-- C7 on the example of the specification: with the symbols `foo` at 0x1000 and
`bar` at 0x2000, renaming `foo` to `bar` shows the dialog, the warning and the
dialog again, and leaves the disassembler, with its symbol table, as it was. -/
theorem rename_duplicate_witness :
    (Sample.offered 10 4096).m_disassembler = some (Sample.subscribed (Sample.disassembler 10)) ∧
    (Sample.subscribed (Sample.disassembler 10)).document.symbol 4096
      = some { address := 4096, name := String.toList "foo" } ∧
    (Sample.subscribed (Sample.disassembler 10)).document.symbols.symbol (String.toList "bar")
      = some { address := 8192, name := String.toList "bar" } ∧
    (∃ fx, (Sample.offered 10 4096).rename 4096 [String.toList "bar"] = some
      ((Sample.offered 10 4096).emitAll
        (renamePrompt { address := 4096, name := String.toList "foo" } :: duplicateWarning ::
          renamePrompt { address := 4096, name := String.toList "foo" } :: fx))) ∧
    (∀ w, (Sample.offered 10 4096).rename 4096 [String.toList "bar"] = some w →
      w.m_disassembler = some (Sample.subscribed (Sample.disassembler 10))) :=
  ⟨by decide, by decide, by decide,
    (rename_duplicate (Sample.offered 10 4096) (Sample.subscribed (Sample.disassembler 10))
      { address := 4096, name := String.toList "foo" }
      { address := 8192, name := String.toList "bar" } 4096 (String.toList "bar") []
      (by decide) (by decide) (by decide) (by decide) (by decide)).2.1,
    (rename_duplicate (Sample.offered 10 4096) (Sample.subscribed (Sample.disassembler 10))
      { address := 4096, name := String.toList "foo" }
      { address := 8192, name := String.toList "bar" } 4096 (String.toList "bar") []
      (by decide) (by decide) (by decide) (by decide) (by decide)).2.2.1⟩

theorem simplifiedTail_mem (gap : Bool) (s : QString) (c : Char)
    (h : c ∈ QString.simplifiedTail gap s) : c = ' ' ∨ QChar.isSpace c = false := by
  induction s generalizing gap with
  | nil => simp [QString.simplifiedTail] at h
  | cons x xs ih =>
    unfold QString.simplifiedTail at h
    by_cases hx : QChar.isSpace x = true
    · rw [if_pos hx] at h; exact ih _ h
    · rw [if_neg hx] at h
      cases gap with
      | true =>
        simp only [if_true, List.mem_cons] at h
        rcases h with h | h | h
        · exact Or.inl h
        · right; rw [h]; simpa using hx
        · exact ih _ h
      | false =>
        simp only [Bool.false_eq_true, if_false, List.mem_cons] at h
        rcases h with h | h
        · right; rw [h]; simpa using hx
        · exact ih _ h

theorem simplified_mem (s : QString) (c : Char) (h : c ∈ QString.simplified s) :
    c = ' ' ∨ QChar.isSpace c = false := by
  induction s with
  | nil => simp [QString.simplified] at h
  | cons x xs ih =>
    unfold QString.simplified at h
    by_cases hx : QChar.isSpace x = true
    · rw [if_pos hx] at h; exact ih h
    · rw [if_neg hx] at h
      simp only [List.mem_cons] at h
      rcases h with h | h
      · right; rw [h]; simpa using hx
      · exact simplifiedTail_mem _ _ _ h

/-- The name `rename` computes has no whitespace in it. -/
theorem newsym_no_space (s : QString) (c : Char) (h : c ∈ newsym s) :
    QChar.isSpace c = false := by
  unfold newsym QString.replace at h
  rw [List.mem_map] at h
  obtain ⟨x, hx, hc⟩ := h
  by_cases h1 : x = ' '
  · rw [if_pos h1] at hc; rw [← hc]; decide
  · rw [if_neg h1] at hc
    rw [← hc]
    rcases simplified_mem s x hx with h2 | h2
    · exact absurd h2 h1
    · exact h2

theorem intercalate_cons_eq (sep x : QString) (xs : List QString) :
    List.intercalate sep (x :: xs) = x ++ (xs.map (fun w => sep ++ w)).flatten := by
  induction xs generalizing x with
  | nil => simp [List.intercalate]
  | cons y ys ih =>
    have h := ih y
    simp only [List.intercalate, List.intersperse, List.flatten_cons, List.map_cons] at h ⊢
    rw [h]
    simp

theorem replace_of_not_space (c : Char) (h : QChar.isSpace c = false) :
    (if c = ' ' then '_' else c) = c := by
  have : c ≠ ' ' := by
    intro hc; rw [hc] at h; exact absurd h (by decide)
  rw [if_neg this]

/-- The output of `simplifiedTail` with its spaces replaced by underscores, in
terms of the words that follow. -/
theorem simplifiedTail_words (s : QString) :
    (QString.simplifiedTail true s).replace ' ' '_'
      = ((QString.words s).map (fun w => ['_'] ++ w)).flatten ∧
    (QString.simplifiedTail false s).replace ' ' '_'
      = (QString.splitWords s).1 ++ (((QString.splitWords s).2).map (fun w => ['_'] ++ w)).flatten := by
  induction s with
  | nil => simp [QString.simplifiedTail, QString.replace, QString.words, QString.splitWords]
  | cons c cs ih =>
    obtain ⟨ih1, ih2⟩ := ih
    by_cases hc : QChar.isSpace c = true
    · constructor
      · rw [QString.simplifiedTail, if_pos hc, ih1]
        simp [QString.words, QString.splitWords, hc]
      · rw [QString.simplifiedTail, if_pos hc, ih1]
        simp [QString.words, QString.splitWords, hc]
    · have hr := replace_of_not_space c (by simpa using hc)
      constructor
      · rw [QString.simplifiedTail, if_neg hc, if_pos rfl]
        simp only [QString.replace, List.map_cons] at ih2 ⊢
        rw [ih2, hr]
        simp [QString.words, QString.splitWords, hc]
      · rw [QString.simplifiedTail, if_neg hc]
        simp only [Bool.false_eq_true, if_false, QString.replace, List.map_cons] at ih2 ⊢
        rw [ih2, hr]
        simp [QString.splitWords, hc]

/-- The name `rename` computes is the normalized name of the specification. -/
theorem newsym_eq_normalizedName (s : QString) : newsym s = normalizedName s := by
  unfold newsym normalizedName
  induction s with
  | nil => rfl
  | cons c cs ih =>
    by_cases hc : QChar.isSpace c = true
    · rw [QString.simplified, if_pos hc, ih]
      simp [QString.words, QString.splitWords, hc]
    · have hr := replace_of_not_space c (by simpa using hc)
      rw [QString.simplified, if_neg hc]
      have h2 := (simplifiedTail_words cs).2
      simp only [QString.replace, List.map_cons] at h2 ⊢
      rw [h2, hr]
      have hw : QString.words (c :: cs)
          = (c :: (QString.splitWords cs).1) :: (QString.splitWords cs).2 := by
        simp [QString.words, QString.splitWords, hc]
      rw [hw, intercalate_cons_eq]
      simp

end DisassemblerTextView
